import Mathlib

/-!
# StoryWeaver layered layout engine — verification development

Shallow embedding of the two near-duplicate `handleAutoLayout` implementations:
* `OutlineView.handleAutoLayout` (outline mode, explicit edge records), and
* `GraphView.handleAutoLayout` (script mode, edges implicit in `nextId` / choice targets),

together with proofs about graph construction, BFS layer assignment, barycenter
crossing minimization, and coordinate assignment.

Modelling conventions:
* Node and edge ids are opaque strings in the source; they are modelled as `Nat`.
  JavaScript object keys used by the source (`adj`, `revAdj`, `inDegree`,
  `nodeLayer`) are modelled as insertion-ordered association lists (`recGet` /
  `recSet`), matching JS object iteration order for the app's non-numeric
  string keys.
* JS numbers are modelled as exact rationals `Q` (an `Int` numerator with a
  positive `Int` denominator, not normalized).  Every arithmetic operation the
  engine performs on coordinates (sums, differences, halving, min/max) is exact
  on IEEE doubles for the magnitudes involved; only the barycenter division
  `sum / count` rounds in the source, which can at most turn a strict score
  comparison into a tie for astronomically large inputs.
* `Array.prototype.sort` is stable (ES2019); with a consistent comparator the
  stable sorted result is unique, so it is modelled by a stable insertion sort.
* The source's `while (queue.length > 0)` loop is modelled by a fueled
  recursion `bfsRun`; `bfsRun_drains` shows the fuel used by the pipeline
  (`queueMeasure`) always suffices to empty the queue, so the model computes
  exactly the loop's final state.
-/

namespace StoryWeaver

/-- Node/edge identifier (an opaque string in the source). -/
abbrev Id := Nat

/-! ## Exact rational numbers

A kernel-computable stand-in for the JS numbers manipulated by the layout
code.  `num / den`, with `den > 0` for every value built by the engine. -/

/-- An exact rational `num / den`.  Not normalized; all values produced by the
layout pipeline have a positive denominator. -/
structure Q where
  num : Int
  den : Int
deriving DecidableEq, Repr

/-- Embed an integer. -/
def qI (n : Int) : Q := ⟨n, 1⟩

/-- Addition. -/
def Q.add (a b : Q) : Q := ⟨a.num * b.den + b.num * a.den, a.den * b.den⟩

/-- Subtraction. -/
def Q.sub (a b : Q) : Q := ⟨a.num * b.den - b.num * a.den, a.den * b.den⟩

/-- Halving (`x / 2` in the source). -/
def Q.half (a : Q) : Q := ⟨a.num, a.den * 2⟩

/-- Division by a positive count (barycenter `sum / validParents.length`). -/
def Q.divNat (a : Q) (n : Nat) : Q := ⟨a.num, a.den * (n : Int)⟩

/-- Semantic strict order (valid for positive denominators). -/
def Q.lt (a b : Q) : Prop := a.num * b.den < b.num * a.den

/-- Semantic non-strict order (valid for positive denominators). -/
def Q.le (a b : Q) : Prop := a.num * b.den ≤ b.num * a.den

instance (a b : Q) : Decidable (Q.lt a b) := by unfold Q.lt; infer_instance

instance (a b : Q) : Decidable (Q.le a b) := by unfold Q.le; infer_instance

/-- Semantic equality test (cross multiplication), used where the source
compares computed numbers (`idealCenterY !== -1`). -/
def Q.beqv (a b : Q) : Bool := a.num * b.den == b.num * a.den

/-- `Math.max` on two values. -/
def Q.max (a b : Q) : Q := if Q.lt a b then b else a

/-- `Math.min` on two values. -/
def Q.min (a b : Q) : Q := if Q.lt b a then b else a

/-- A 2D position (`{x, y}` in the source). -/
structure Pos where
  x : Q
  y : Q
deriving DecidableEq, Repr

/-! ## Data model (from `types.ts` as used by the two views) -/

/-- Connection side of an outline edge endpoint. -/
inductive AnchorSide where
  | top | bottom | left | right
deriving DecidableEq, Repr

/-- Outline card color. -/
inductive OutlineColor where
  | white | blue | green | yellow | red
deriving DecidableEq, Repr

/-- Outline card type. -/
inductive OutlineNodeType where
  | DEFAULT | CHOICE | END
deriving DecidableEq, Repr

/-- An outline card (`OutlineNode`). -/
structure OutlineNode where
  id : Id
  position : Pos
  width : Q
  height : Q
  title : String
  content : String
  color : OutlineColor
  type : OutlineNodeType
deriving DecidableEq, Repr

/-- An outline connection (`OutlineEdge`). -/
structure OutlineEdge where
  id : Id
  sourceId : Id
  sourceAnchor : AnchorSide
  targetId : Id
  targetAnchor : AnchorSide
  label : String
deriving DecidableEq, Repr

/-- Script node type (`NodeType`). -/
inductive NodeType where
  | START | DIALOGUE | MONOLOGUE | CHOICE | END
deriving DecidableEq, Repr

/-- A choice row of a script `CHOICE` node. -/
structure Choice where
  id : Id
  label : String
  targetNodeId : Option Id
deriving DecidableEq, Repr

/-- A script node (`ScriptNode`). -/
structure ScriptNode where
  id : Id
  type : NodeType
  character : String
  text : String
  choices : List Choice
  nextId : Option Id
  position : Pos
  scene : Option String
  characterArt : Option String
  expression : Option String
deriving DecidableEq, Repr

/-- Graph-view visibility options (`ViewOptions`), the fields used by
`calculateNodeHeight`. -/
structure ViewOptions where
  showScene : Bool
  showArt : Bool
  showExpression : Bool
  showLogic : Bool
  enableColorCoding : Bool
deriving DecidableEq, Repr

/-! ## JS records as insertion-ordered association lists -/

/-- `m[k]` on a JS object used as a map. -/
def recGet {α : Type} : List (Id × α) → Id → Option α
  | [], _ => none
  | p :: m, k => if p.1 = k then some p.2 else recGet m k

/-- `m[k] = v` on a JS object used as a map: overwrite in place if the key
exists, append otherwise (JS string-keyed insertion order). -/
def recSet {α : Type} : List (Id × α) → Id → α → List (Id × α)
  | [], k, v => [(k, v)]
  | p :: m, k, v => if p.1 = k then (k, v) :: m else p :: recSet m k v

/-! ## Stable sort

`Array.prototype.sort` with a numeric comparator `key a - key b` (ES2019:
stable).  For a consistent comparator the stable result is unique, so the
insertion sort below models it faithfully. -/

/-- Insert `x` before the first element whose key is not smaller (stable). -/
def insertByKey {α : Type} (key : α → Q) (x : α) : List α → List α
  | [] => [x]
  | y :: ys => if Q.lt (key y) (key x) then y :: insertByKey key x ys else x :: y :: ys

/-- Stable sort ascending by `key`. -/
def sortByKey {α : Type} (key : α → Q) : List α → List α
  | [] => []
  | x :: xs => insertByKey key x (sortByKey key xs)

/-! ## BFS layer assignment (shared by both variants)

Models the `while (queue.length > 0)` loop:
```
const { id, layer } = queue.shift()!;
if (nodeLayer[id] !== undefined && nodeLayer[id] >= layer) continue;
nodeLayer[id] = layer;
const children = adj[id] || [];
children.forEach(childId => { if (layer < 50) queue.push({ id: childId, layer: layer + 1 }); });
```
-/

/-- The entries pushed when `(i, layer)` is assigned. -/
def bfsPushes (adj : List (Id × List Id)) (i : Id) (layer : Nat) : List (Id × Nat) :=
  if layer < 50 then ((recGet adj i).getD []).map (fun c => (c, layer + 1)) else []

/-- Fueled BFS loop; returns the final `nodeLayer` map and the remaining queue
(empty whenever the fuel is at least `queueMeasure`, see `bfsRun_drains`). -/
def bfsRun (adj : List (Id × List Id)) :
    Nat → List (Id × Nat) → List (Id × Nat) → List (Id × Nat) × List (Id × Nat)
  | 0, nl, q => (nl, q)
  | _ + 1, nl, [] => (nl, [])
  | fuel + 1, nl, (i, layer) :: rest =>
    match recGet nl i with
    | some l =>
      if layer ≤ l then bfsRun adj fuel nl rest
      else bfsRun adj fuel (recSet nl i layer) (rest ++ bfsPushes adj i layer)
    | none => bfsRun adj fuel (recSet nl i layer) (rest ++ bfsPushes adj i layer)

/-- Largest adjacency-list length, bounding how many entries one pop can push. -/
def maxArity (adj : List (Id × List Id)) : Nat :=
  adj.foldl (fun m p => Nat.max m p.2.length) 0

/-- Weight of a queue entry: high for shallow layers, so that every step of
`bfsRun` strictly decreases the total queue weight. -/
def entryWeight (D layer : Nat) : Nat := (D + 1) ^ (51 - Nat.min layer 51)

/-- Total queue weight; used as (always sufficient) fuel for `bfsRun`. -/
def queueMeasure (D : Nat) (q : List (Id × Nat)) : Nat :=
  (q.map (fun e => entryWeight D e.2)).sum

/-!  After the queue drains, unvisited nodes default to layer 0:
`nodes.forEach(n => { if (nodeLayer[n.id] === undefined) nodeLayer[n.id] = 0; })`. -/

/-- Fallback assignment of layer 0 to ids missing from the layer map. -/
def withFallback {β : Type} (nl : List (Id × Nat)) (nodes : List β) (nid : β → Id) :
    List (Id × Nat) :=
  nodes.foldl (fun nl n => if (recGet nl (nid n)).isSome then nl else recSet nl (nid n) 0) nl

/-! ## Layer grouping

`Object.entries(nodeLayer)` in nodeLayer insertion order, pushed into
`layers[layer]`; so the bucket of layer `l` is the ids mapped to `l`, in map
order.  `maxLayer = Math.max(...Object.keys(layers).map(Number))`; the `0`
fold seed is exact for every nonempty map because layers are naturals (layer 0
itself may be empty — see `OutlineView.layer0Missing` below). -/

/-- The bucket of one layer. -/
def layerIds (nl : List (Id × Nat)) (l : Nat) : List Id :=
  (nl.filter (fun p => p.2 = l)).map Prod.fst

/-- The largest assigned layer. -/
def maxLayer (nl : List (Id × Nat)) : Nat := (nl.map Prod.snd).foldl Nat.max 0

/-- Replace the first element with the given id (models
`const i = newNodes.findIndex(n => n.id === nid); newNodes[i] = b;`:
`findIndex` returns the first matching index, and assignment at that index is
exactly a first-match replacement). -/
def replaceFirstById {α : Type} (nid : α → Id) (j : Id) (b : α) : List α → List α
  | [] => []
  | n :: rest => if nid n = j then b :: rest else n :: replaceFirstById nid j b rest

/-! ## Outline view (`OutlineView.handleAutoLayout`, src/unnamed/part_001) -/

namespace OutlineView

/-- Adjacency, reverse adjacency (parents), and in-degree maps. -/
structure Graph where
  adj : List (Id × List Id)
  revAdj : List (Id × List Id)
  inDegree : List (Id × Nat)
deriving Repr

/-- Per-node initialization:
`adj[n.id] = []; revAdj[n.id] = []; if (inDegree[n.id] === undefined) inDegree[n.id] = 0;`. -/
def initGraph (nodes : List OutlineNode) : Graph :=
  nodes.foldl
    (fun g n =>
      { adj := recSet g.adj n.id [],
        revAdj := recSet g.revAdj n.id [],
        inDegree :=
          if (recGet g.inDegree n.id).isSome then g.inDegree else recSet g.inDegree n.id 0 })
    ⟨[], [], []⟩

/-- One edge record:
`if (adj[e.sourceId]) adj[e.sourceId].push(e.targetId);`
`if (revAdj[e.targetId]) revAdj[e.targetId].push(e.sourceId);`
`inDegree[e.targetId] = (inDegree[e.targetId] || 0) + 1;`. -/
def addEdge (g : Graph) (e : OutlineEdge) : Graph :=
  { adj :=
      match recGet g.adj e.sourceId with
      | some l => recSet g.adj e.sourceId (l ++ [e.targetId])
      | none => g.adj,
    revAdj :=
      match recGet g.revAdj e.targetId with
      | some l => recSet g.revAdj e.targetId (l ++ [e.sourceId])
      | none => g.revAdj,
    inDegree := recSet g.inDegree e.targetId ((recGet g.inDegree e.targetId).getD 0 + 1) }

/-- Build the graph from all nodes and all edge records (no deduplication of
edges: every record increments its target's in-degree). -/
def buildGraph (nodes : List OutlineNode) (edges : List OutlineEdge) : Graph :=
  edges.foldl addEdge (initGraph nodes)

/-- Roots (`inDegree === 0`) seeded at layer 0, with the first node as a
fallback when no root exists (cyclic graph). -/
def seeds (nodes : List OutlineNode) (g : Graph) : List (Id × Nat) :=
  let roots := (nodes.filter (fun n => recGet g.inDegree n.id = some 0)).map (fun n => (n.id, 0))
  if roots = [] then
    match nodes with
    | [] => []
    | n :: _ => [(n.id, 0)]
  else roots

/-- Final `nodeLayer` map: BFS from the seeds (with the always-sufficient fuel
`queueMeasure`), then unvisited nodes defaulted to layer 0. -/
def nodeLayer (nodes : List OutlineNode) (edges : List OutlineEdge) : List (Id × Nat) :=
  let g := buildGraph nodes edges
  let s := seeds nodes g
  withFallback (bfsRun g.adj (queueMeasure (maxArity g.adj) s) [] s).1 nodes OutlineNode.id

/-- The original y position of a node, used as the layer-0 tie-break
(`nodes.find(n => n.id === a)!.position.y`; layer 0 only holds real node ids). -/
def yOf (nodes : List OutlineNode) (a : Id) : Q :=
  ((nodes.find? (fun n => n.id = a)).map (fun n => n.position.y)).getD (qI 0)

/-- Barycenter score of a node in the forward pass: the mean previous-layer
index of its parents that sit in the previous layer, and the large sentinel
`9999` ("push unconnected to bottom") when it has none. -/
def baryScore (revAdj : List (Id × List Id)) (prevBucket : List Id) (nid : Id) : Q :=
  let parents := (recGet revAdj nid).getD []
  let valid := parents.filter (fun p => p ∈ prevBucket)
  if valid = [] then qI 9999
  else Q.divNat (qI ((valid.map (fun p => prevBucket.indexOf p)).sum : Nat)) valid.length

/-- Buckets after crossing minimization: layer 0 sorted by original y, then one
forward pass sorting layer `l` by `baryScore` against sorted layer `l-1` (the
forward pass is guarded, `layers[l] || []`).  The layer-0 sort is *unguarded*
in the source: when no node has layer 0 it throws a `TypeError` and the run
produces nothing — that crash condition is `layer0Missing` below; this
definition describes completing runs and sorts an empty bucket instead. -/
def sortedBuckets (nodes : List OutlineNode) (edges : List OutlineEdge) : List (List Id) :=
  let g := buildGraph nodes edges
  let nl := nodeLayer nodes edges
  let maxL := maxLayer nl
  let bs0 := (List.range (maxL + 1)).map (fun l => layerIds nl l)
  let bs1 := bs0.set 0 (sortByKey (yOf nodes) (bs0.getD 0 []))
  (List.range' 1 maxL).foldl
    (fun bs l => bs.set l (sortByKey (baryScore g.revAdj (bs.getD (l - 1) [])) (bs.getD l [])))
    bs1

/-- Parents of `nid` sitting exactly in the previous layer:
`parents.filter(pid => nodeLayer[pid] === l - 1)` (for `l = 0` the right-hand
side is `-1`, which is never a layer). -/
def validParents (revAdj : List (Id × List Id)) (nl : List (Id × Nat)) (l : Nat)
    (nid : Id) : List Id :=
  if l = 0 then []
  else ((recGet revAdj nid).getD []).filter (fun pid => recGet nl pid = some (l - 1))

/-- `idealCenterY`: `-1` when there is no valid parent, else the midpoint of
the bounding vertical span of the valid parents found in `newNodes`.  When
`validParents` is nonempty but none of them is a real node (an edge with a
dangling source id), the source computes `(Infinity + -Infinity) / 2 = NaN`;
this definition returns the `-1` sentinel there, so the centering theorems
over it carry the hypothesis that every edge source exists.  The NaN path
itself is modelled faithfully by `idealCenterYN`/`laidYsN` below, which
claim C7's counterexample evaluates. -/
def idealCenterY (revAdj : List (Id × List Id)) (nl : List (Id × Nat)) (l : Nat)
    (acc : List OutlineNode) (nid : Id) : Q :=
  if validParents revAdj nl l nid = [] then qI (-1)
  else
    match acc.filter (fun n => (validParents revAdj nl l nid).contains n.id) with
    | [] => qI (-1)
    | p :: ps =>
      let minP := ps.foldl (fun m q => Q.min m q.position.y) p.position.y
      let maxP := ps.foldl (fun m q => Q.max m (Q.add q.position.y q.height))
        (Q.add p.position.y p.height)
      Q.half (Q.add minP maxP)

/-- Final top y of one node: the running cursor, or
`Math.max(previousNodeBottomY, idealCenterY - node.height / 2)` when an ideal
center exists (`idealCenterY !== -1`). -/
def finalYOf (revAdj : List (Id × List Id)) (nl : List (Id × Nat)) (l : Nat)
    (acc : List OutlineNode) (nid : Id) (cursor : Q) (node : OutlineNode) : Q :=
  if Q.beqv (idealCenterY revAdj nl l acc nid) (qI (-1)) then cursor
  else Q.max cursor (Q.sub (idealCenterY revAdj nl l acc nid) (Q.half node.height))

/-- One step of coordinate assignment: place node `nid` of layer `l`.
State is `(newNodes, previousNodeBottomY)`; a missing id
(`nodeIndex === -1`) is skipped without advancing the cursor. -/
def placeNode (revAdj : List (Id × List Id)) (nl : List (Id × Nat)) (l : Nat)
    (st : List OutlineNode × Q) (nid : Id) : List OutlineNode × Q :=
  match st.1.find? (fun n => n.id = nid) with
  | none => st
  | some node =>
    let finalY := finalYOf revAdj nl l st.1 nid st.2 node
    (replaceFirstById OutlineNode.id nid
      { node with position := ⟨qI (100 + 350 * (l : Int)), finalY⟩ } st.1,
     Q.add (Q.add finalY node.height) (qI 50))

/-- Place one layer: walk its bucket with the running cursor starting at 100. -/
def placeLayer (revAdj : List (Id × List Id)) (nl : List (Id × Nat)) (l : Nat)
    (acc : List OutlineNode) (bucket : List Id) : List OutlineNode :=
  (bucket.foldl (placeNode revAdj nl l) (acc, qI 100)).1

/-- Coordinate assignment over all layers in ascending order. -/
def laidNodes (nodes : List OutlineNode) (edges : List OutlineEdge) : List OutlineNode :=
  let g := buildGraph nodes edges
  let nl := nodeLayer nodes edges
  let bs := sortedBuckets nodes edges
  (List.range (maxLayer nl + 1)).foldl
    (fun acc l => placeLayer g.revAdj nl l acc (bs.getD l [])) nodes

/-- Edge cleanup: every edge is reset to exit right / enter left. -/
def cleanedEdges (edges : List OutlineEdge) : List OutlineEdge :=
  edges.map (fun e => { e with sourceAnchor := AnchorSide.right, targetAnchor := AnchorSide.left })

/-- The outline-mode auto layout.  `none` models the early return on an empty
node set (no `onUpdate` call). -/
def handleAutoLayout (nodes : List OutlineNode) (edges : List OutlineEdge) :
    Option (List OutlineNode × List OutlineEdge) :=
  if nodes = [] then none
  else some (laidNodes nodes edges, cleanedEdges edges)

end OutlineView

/-! ## Graph view (`GraphView.handleAutoLayout`, src/unnamed/part_002) -/

namespace GraphView

/-- Dynamic node height (`calculateNodeHeight`). -/
def calculateNodeHeight (vo : ViewOptions) (node : ScriptNode) : Q :=
  qI (45 + 32 + 60
    + (if vo.showScene then 60 else 0)
    + (if vo.showArt then 60 else 0)
    + (if vo.showExpression then 60 else 0)
    + 90
    + (if vo.showLogic then
        if node.type = NodeType.CHOICE then 30 + 40 * (node.choices.length : Int)
        else if node.type ≠ NodeType.END then 25 + 15 else 0
      else 0))

/-- First occurrences of a node's outgoing targets:
choice targets for `CHOICE` nodes, else `nextId`; `[...new Set(targets)]`. -/
def uniqueTargets (n : ScriptNode) : List Id :=
  let targets :=
    if n.type = NodeType.CHOICE then n.choices.filterMap (fun c => c.targetNodeId)
    else
      match n.nextId with
      | some t => [t]
      | none => []
  targets.foldl (fun acc t => if t ∈ acc then acc else acc ++ [t]) []

/-- Adjacency, reverse adjacency, and in-degree maps. -/
structure Graph where
  adj : List (Id × List Id)
  revAdj : List (Id × List Id)
  inDegree : List (Id × Nat)
deriving Repr

/-- Per-node initialization (same as the outline variant). -/
def initGraph (nodes : List ScriptNode) : Graph :=
  nodes.foldl
    (fun g n =>
      { adj := recSet g.adj n.id [],
        revAdj := recSet g.revAdj n.id [],
        inDegree :=
          if (recGet g.inDegree n.id).isSome then g.inDegree else recSet g.inDegree n.id 0 })
    ⟨[], [], []⟩

/-- Record one deduplicated target `t` of the source node `nid`
(same three updates as the outline variant's edge step). -/
def addTargetEdge (nid : Id) (g : Graph) (t : Id) : Graph :=
  { adj :=
      match recGet g.adj nid with
      | some l => recSet g.adj nid (l ++ [t])
      | none => g.adj,
    revAdj :=
      match recGet g.revAdj t with
      | some l => recSet g.revAdj t (l ++ [nid])
      | none => g.revAdj,
    inDegree := recSet g.inDegree t ((recGet g.inDegree t).getD 0 + 1) }

/-- Record the deduplicated targets of one source node. -/
def addNodeEdges (g : Graph) (n : ScriptNode) : Graph :=
  (uniqueTargets n).foldl (addTargetEdge n.id) g

/-- Build the graph: in-degree is incremented once per distinct
(source, target) pair. -/
def buildGraph (nodes : List ScriptNode) : Graph :=
  nodes.foldl addNodeEdges (initGraph nodes)

/-- Seeds: all `START` nodes at layer 0 first, then the remaining in-degree-0
nodes, then the first node as fallback if neither exists. -/
def seeds (nodes : List ScriptNode) (g : Graph) : List (Id × Nat) :=
  let s := (nodes.filter (fun n => n.type = NodeType.START)).map (fun n => (n.id, 0))
    ++ (nodes.filter
        (fun n => recGet g.inDegree n.id = some 0 ∧ n.type ≠ NodeType.START)).map
          (fun n => (n.id, 0))
  if s = [] then
    match nodes with
    | [] => []
    | n :: _ => [(n.id, 0)]
  else s

/-- Final `nodeLayer` map of the script variant. -/
def nodeLayer (nodes : List ScriptNode) : List (Id × Nat) :=
  let g := buildGraph nodes
  let s := seeds nodes g
  withFallback (bfsRun g.adj (queueMeasure (maxArity g.adj) s) [] s).1 nodes ScriptNode.id

/-- Layer-0 sort key: the comparator returns -1 when the first node is the
`START` node, modelled as a stable sort moving `START` nodes first. -/
def startKey (nodes : List ScriptNode) (a : Id) : Q :=
  if (nodes.find? (fun n => n.id = a)).map (fun n => n.type) = some NodeType.START then qI 0
  else qI 1

/-- Barycenter score (`nodeBarycenter`), computed against the pre-sort bucket:
mean previous-layer parent index, or the node's own current index in its layer
when it has no parent there. -/
def baryScore (revAdj : List (Id × List Id)) (prevBucket curBucket : List Id) (nid : Id) : Q :=
  let parents := (recGet revAdj nid).getD []
  let relevant := parents.filter (fun p => p ∈ prevBucket)
  if relevant = [] then qI (curBucket.indexOf nid : Nat)
  else Q.divNat (qI ((relevant.map (fun p => prevBucket.indexOf p)).sum : Nat)) relevant.length

/-- Buckets after crossing minimization.  The source ends each forward-pass
iteration with an unguarded `layers[l].sort`: on a gap layer — left by the
depth cap whenever a cycle is reachable — it throws a `TypeError` and the run
produces nothing.  That crash condition is `hasGapLayer` below; this
definition describes completing runs and sorts an empty bucket instead (the
layer-0 sort is guarded by `if (layers[0])` in the source). -/
def sortedBuckets (nodes : List ScriptNode) : List (List Id) :=
  let g := buildGraph nodes
  let nl := nodeLayer nodes
  let maxL := maxLayer nl
  let bs0 := (List.range (maxL + 1)).map (fun l => layerIds nl l)
  let bs1 := bs0.set 0 (sortByKey (startKey nodes) (bs0.getD 0 []))
  (List.range' 1 maxL).foldl
    (fun bs l =>
      bs.set l (sortByKey (baryScore g.revAdj (bs.getD (l - 1) []) (bs.getD l []))
        (bs.getD l [])))
    bs1

/-- One step of coordinate assignment: `y = currentY`, then
`currentY += height + NODE_GAP` (no parent centering in this variant). -/
def placeNode (vo : ViewOptions) (l : Nat) (st : List ScriptNode × Q) (nid : Id) :
    List ScriptNode × Q :=
  match st.1.find? (fun n => n.id = nid) with
  | none => st
  | some node =>
    (replaceFirstById ScriptNode.id nid
      { node with position := ⟨qI (100 + 420 * (l : Int)), st.2⟩ } st.1,
     Q.add (Q.add st.2 (calculateNodeHeight vo node)) (qI 60))

/-- Place one layer with the cursor starting at 100. -/
def placeLayer (vo : ViewOptions) (l : Nat) (acc : List ScriptNode) (bucket : List Id) :
    List ScriptNode :=
  (bucket.foldl (placeNode vo l) (acc, qI 100)).1

/-- Coordinate assignment over all layers. -/
def laidNodes (vo : ViewOptions) (nodes : List ScriptNode) : List ScriptNode :=
  let nl := nodeLayer nodes
  let bs := sortedBuckets nodes
  (List.range (maxLayer nl + 1)).foldl
    (fun acc l => placeLayer vo l acc (bs.getD l [])) nodes

/-- The script-mode auto layout (no edge records, hence no edge rewrite). -/
def handleAutoLayout (vo : ViewOptions) (nodes : List ScriptNode) :
    Option (List ScriptNode) :=
  if nodes = [] then none else some (laidNodes vo nodes)

end GraphView

/-! ## Frame properties of coordinate assignment

Both variants build `newNodes` as `[...nodes]` and only ever execute
`newNodes[i] = { ...node, position: ... }`: the list length, the id order and
every non-position field are preserved, and the input array is never mutated
(the embedding is purely functional; `{ ...node }` copies). -/

/-- Erase the position (the only field the engine writes). -/
def clearPosO (n : OutlineNode) : OutlineNode := { n with position := ⟨qI 0, qI 0⟩ }

/-- Erase the position of a script node. -/
def clearPosS (n : ScriptNode) : ScriptNode := { n with position := ⟨qI 0, qI 0⟩ }

/-! ## Specification predicates used by the claims -/

/-- The nodes of one bucket, in bucket order, as found in a node list
(skipping ids that are not real nodes, as the coordinate walk does). -/
def placedSeqO (out : List OutlineNode) (bucket : List Id) : List OutlineNode :=
  bucket.filterMap (fun nid => out.find? (fun n => n.id = nid))

/-- Script-variant counterpart of `placedSeqO`. -/
def placedSeqS (out : List ScriptNode) (bucket : List Id) : List ScriptNode :=
  bucket.filterMap (fun nid => out.find? (fun n => n.id = nid))

/-- The outline Coordinator recurrence, read off the output: every node's
final top y equals `finalYOf` (cursor, or `max(cursor, idealCenterY − h/2)`)
computed against the final node list, with the cursor advancing to
`y + height + 50` past each placed node. -/
def centeredChain (revAdj : List (Id × List Id)) (nl : List (Id × Nat)) (l : Nat)
    (out : List OutlineNode) : Q → List OutlineNode → Prop
  | _, [] => True
  | cursor, n :: rest =>
    n.position.y = OutlineView.finalYOf revAdj nl l out n.id cursor n ∧
    centeredChain revAdj nl l out (Q.add (Q.add n.position.y n.height) (qI 50)) rest

/-- The script Coordinator recurrence: every node's final top y is exactly the
running cursor (no parent centering), which advances by `height + 60`. -/
def stackedChain (vo : ViewOptions) : Q → List ScriptNode → Prop
  | _, [] => True
  | cursor, n :: rest =>
    n.position.y = cursor ∧
    stackedChain vo (Q.add (Q.add cursor (GraphView.calculateNodeHeight vo n)) (qI 60)) rest

/-- Elementwise relation: two node lists agree except (at most) on ids
satisfying `S` — same ids position-wise, and equal entries outside `S`. -/
def AgreeExcept {α : Type} (nid : α → Id) (S : Id → Prop) (a b : α) : Prop :=
  nid a = nid b ∧ (¬ S (nid a) → a = b)

namespace OutlineView

/-- Modelled from the spec's words for claim C4 only (not from the source):
the crossing-minimization fallback it attributes to the outline variant,
"its own current index in that layer if no parent score is available",
in place of the source's 9999 sentinel. -/
def specOwnIndexScore (revAdj : List (Id × List Id)) (prevBucket curBucket : List Id)
    (nid : Id) : Q :=
  let parents := (recGet revAdj nid).getD []
  let valid := parents.filter (fun p => p ∈ prevBucket)
  if valid = [] then qI ((curBucket.indexOf nid : Nat) : Int)
  else Q.divNat (qI (((valid.map (fun p => prevBucket.indexOf p)).sum : Nat) : Int)) valid.length

/-- The outline crossing pass as claim C4 describes it (own-index fallback);
compared against the source-faithful `sortedBuckets`. -/
def specSortedBuckets (nodes : List OutlineNode) (edges : List OutlineEdge) :
    List (List Id) :=
  let g := buildGraph nodes edges
  let nl := nodeLayer nodes edges
  let maxL := maxLayer nl
  let bs0 := (List.range (maxL + 1)).map (fun l => layerIds nl l)
  let bs1 := bs0.set 0 (sortByKey (yOf nodes) (bs0.getD 0 []))
  (List.range' 1 maxL).foldl
    (fun bs l =>
      bs.set l (sortByKey (specOwnIndexScore g.revAdj (bs.getD (l - 1) []) (bs.getD l []))
        (bs.getD l [])))
    bs1

end OutlineView

/-! ## Concrete inputs used by counterexamples and witnesses -/

/-- An outline card with the given id and original y (fixed 200×120 size). -/
def exONode (i : Id) (y : Int) : OutlineNode :=
  ⟨i, ⟨qI 0, qI y⟩, qI 200, qI 120, "", "", OutlineColor.white, OutlineNodeType.DEFAULT⟩

/-- An outline edge `s → t` drawn with a top/bottom anchor pair. -/
def exOEdge (s t : Id) : OutlineEdge :=
  ⟨100 + 10 * s + t, s, AnchorSide.top, t, AnchorSide.bottom, ""⟩

/-- A script node with the given id, type and `nextId`. -/
def exSNode (i : Id) (t : NodeType) (nx : Option Id) : ScriptNode :=
  ⟨i, t, "", "", [], nx, ⟨qI 0, qI 0⟩, none, none, none⟩

/-- A 3-chain of outline cards 0 → 1 → 2 with distinct heights. -/
def exChainNodes : List OutlineNode :=
  [⟨0, ⟨qI 7, qI 30⟩, qI 200, qI 120, "a", "", OutlineColor.white, OutlineNodeType.DEFAULT⟩,
   ⟨1, ⟨qI 8, qI 20⟩, qI 200, qI 80, "b", "", OutlineColor.blue, OutlineNodeType.CHOICE⟩,
   ⟨2, ⟨qI 9, qI 10⟩, qI 200, qI 60, "c", "", OutlineColor.red, OutlineNodeType.END⟩]

/-- Edges of the 3-chain. -/
def exChainEdges : List OutlineEdge := [exOEdge 0 1, exOEdge 1 2]

/-- Diamond 0 → 1, 0 → 2, 1 → 2 (outline): node 2 is first reached at layer 1
and later revised to layer 2. -/
def exDiamondNodes : List OutlineNode := [exONode 0 0, exONode 1 0, exONode 2 0]

/-- Edges of the diamond. -/
def exDiamondEdges : List OutlineEdge := [exOEdge 0 1, exOEdge 0 2, exOEdge 1 2]

/-- Two identical outline edge records 0 → 1. -/
def exDupNodes : List OutlineNode := [exONode 0 0, exONode 1 0]

/-- The duplicated edge records. -/
def exDupEdges : List OutlineEdge := [exOEdge 0 1, exOEdge 0 1]

/-- A single node 0 with an edge to the nonexistent id 99. -/
def exDanglingNodes : List OutlineNode := [exONode 0 0]

/-- The dangling edge. -/
def exDanglingEdges : List OutlineEdge := [exOEdge 0 99]

/-- Seven outline cards 0 (root) feeding a 2-cycle 1 ⇄ 2 and a 3-cycle
3 → 4 → 5 → 3 with an extra child 6 of 5.  The depth cap drives the cycles to
layers 48–50: node 1 ends at layer 49 with no parent in layer 48 while nodes
3 and 6 end at layer 49 with parent 5 in layer 48, separating the sentinel
fallback from the own-index fallback. -/
def exC4Nodes : List OutlineNode :=
  [exONode 0 0, exONode 1 0, exONode 2 0, exONode 3 0, exONode 4 0, exONode 5 0, exONode 6 0]

/-- Edges of the two-cycle construction. -/
def exC4Edges : List OutlineEdge :=
  [exOEdge 0 1, exOEdge 1 2, exOEdge 2 1, exOEdge 0 3, exOEdge 3 4, exOEdge 4 5,
   exOEdge 5 3, exOEdge 5 6]

/-- View options with the optional fields hidden and logic shown: a `START`
node then measures 267 and an `END` node 227, so the two heights differ. -/
def exVO : ViewOptions := ⟨false, false, false, true, true⟩

/-- Script chain: START node 0 → END node 1. -/
def exScriptNodes : List ScriptNode :=
  [exSNode 0 NodeType.START (some 1), exSNode 1 NodeType.END none]

/-! ## Faithful error and NaN paths

The pipeline definitions above describe completing runs.  Two behaviours of
the source abort or poison a run, and the following definitions model them
exactly:

* the outline variant sorts `layers[0].sort(...)` unguarded: when no node is
  assigned layer 0 (a rootless cyclic graph, whose fallback seed is itself
  revised upward by the BFS), `layers[0]` is `undefined` and the call throws a
  `TypeError` — the run produces no output at all;
* the script variant's crossing pass ends with an unguarded
  `layers[l].sort(...)` for every `1 ≤ l ≤ maxLayer`: a gap layer (left by the
  depth cap whenever a cycle is reachable) throws there (its layer-0 sort is
  guarded by `if (layers[0])`);
* when a node's `validParents` are all dangling ids the outline coordinate
  walk computes `(Infinity + -Infinity) / 2 = NaN`, and the `NaN` poisons the
  node's final y, the cursor after it and every value derived from them, while
  the run still completes. -/

/-- Outline crash condition: `layers[0].sort` throws exactly when no node is
assigned layer 0. -/
def OutlineView.layer0Missing (nodes : List OutlineNode) (edges : List OutlineEdge) : Prop :=
  layerIds (nodeLayer nodes edges) 0 = []

/-- Script crash condition: some layer in `1‥maxLayer` has no nodes, so the
unguarded `layers[l].sort` of the crossing pass throws. -/
def GraphView.hasGapLayer (nodes : List ScriptNode) : Prop :=
  ∃ l ∈ List.range' 1 (maxLayer (nodeLayer nodes)), layerIds (nodeLayer nodes) l = []

instance (nodes : List OutlineNode) (edges : List OutlineEdge) :
    Decidable (OutlineView.layer0Missing nodes edges) := by
  unfold OutlineView.layer0Missing
  infer_instance

instance (nodes : List ScriptNode) : Decidable (GraphView.hasGapLayer nodes) := by
  unfold GraphView.hasGapLayer
  infer_instance

/-- `Math.min` on JS numbers that may be `NaN` (`none`): NaN propagates. -/
def QN.min : Option Q → Option Q → Option Q
  | some a, some b => some (Q.min a b)
  | _, _ => none

/-- `Math.max` with NaN propagation. -/
def QN.max : Option Q → Option Q → Option Q
  | some a, some b => some (Q.max a b)
  | _, _ => none

/-- Addition with NaN propagation. -/
def QN.add : Option Q → Option Q → Option Q
  | some a, some b => some (Q.add a b)
  | _, _ => none

/-- JS `<=` on possibly-NaN values: every comparison with `NaN` is false. -/
def QN.leb : Option Q → Option Q → Bool
  | some a, some b => decide (Q.le a b)
  | _, _ => false

namespace OutlineView

/-- NaN-faithful ideal center: the `-1` sentinel when there is no valid
parent, `none` (= `NaN`, from `(Infinity + -Infinity) / 2`) when every valid
parent is a dangling id, else the parent-span midpoint.  Presence, order and
heights are read from the input list — the walk never changes them — and the
parents' current y values come from the overlay `yN` of already-assigned
(possibly NaN) values, original positions underneath. -/
def idealCenterYN (revAdj : List (Id × List Id)) (nl : List (Id × Nat)) (l : Nat)
    (nodes : List OutlineNode) (yN : List (Id × Option Q)) (nid : Id) : Option Q :=
  if validParents revAdj nl l nid = [] then some (qI (-1))
  else
    match nodes.filter (fun n => (validParents revAdj nl l nid).contains n.id) with
    | [] => none
    | p :: ps =>
      let yLook := fun (n : OutlineNode) => (recGet yN n.id).getD (some n.position.y)
      let minP := ps.foldl (fun m q => QN.min m (yLook q)) (yLook p)
      let maxP := ps.foldl (fun m q => QN.max m (QN.add (yLook q) (some q.height)))
        (QN.add (yLook p) (some p.height))
      match QN.add minP maxP with
      | none => none
      | some sum => some (Q.half sum)

/-- NaN-faithful final y: `NaN !== -1` is true, so a NaN center flows into
`Math.max(prev, NaN − h/2) = NaN`; a NaN cursor poisons both branches. -/
def finalYOfN (revAdj : List (Id × List Id)) (nl : List (Id × Nat)) (l : Nat)
    (nodes : List OutlineNode) (yN : List (Id × Option Q)) (nid : Id)
    (cursor : Option Q) (node : OutlineNode) : Option Q :=
  match idealCenterYN revAdj nl l nodes yN nid with
  | none => none
  | some v =>
    if Q.beqv v (qI (-1)) then cursor
    else QN.max cursor (some (Q.sub v (Q.half node.height)))

/-- One NaN-faithful walk step: record the node's final y in the overlay and
advance the cursor by `finalY + height + 50` (NaN propagates); a missing id is
skipped without advancing. -/
def placeNodeN (revAdj : List (Id × List Id)) (nl : List (Id × Nat)) (l : Nat)
    (nodes : List OutlineNode) (st : List (Id × Option Q) × Option Q) (nid : Id) :
    List (Id × Option Q) × Option Q :=
  match nodes.find? (fun n => n.id = nid) with
  | none => st
  | some node =>
    let y := finalYOfN revAdj nl l nodes st.1 nid st.2 node
    (recSet st.1 nid y, QN.add (QN.add y (some node.height)) (some (qI 50)))

/-- NaN-faithful final y values of the outline walk, by node id (`none` =
`NaN`); layer assignment, buckets, x columns and all other fields agree with
`laidNodes`, which differs only in totalizing the NaN path to the sentinel. -/
def laidYsN (nodes : List OutlineNode) (edges : List OutlineEdge) :
    List (Id × Option Q) :=
  let g := buildGraph nodes edges
  let nl := nodeLayer nodes edges
  let bs := sortedBuckets nodes edges
  (List.range (maxLayer nl + 1)).foldl
    (fun yN l => ((bs.getD l []).foldl (placeNodeN g.revAdj nl l nodes) (yN, some (qI 100))).1)
    []

end OutlineView

/-- The seven-card nodes of `exC4Nodes` with two extra dangling-source edge
records 4 → 7 and 7 → 1 (7 is not a node): 7 is layered 48 — `adj[7]` does not
exist, so 7 propagates nothing, but `revAdj[1]` records it — and 7 becomes
node 1's only previous-layer parent, so the source computes `y(1) = NaN` while
the run completes (layer 0 holds the root 0). -/
def exC7Edges : List OutlineEdge := exC4Edges ++ [exOEdge 4 7, exOEdge 7 1]

/-- A rootless 2-cycle 0 ⇄ 1. -/
def exCycleNodes : List OutlineNode := [exONode 0 0, exONode 1 0]

/-- Edges of the rootless 2-cycle: both nodes have in-degree 1, the fallback
seed 0 is revised up to layer 50, and layer 0 ends empty. -/
def exCycleEdges : List OutlineEdge := [exOEdge 0 1, exOEdge 1 0]

/-- Script cycle START 0 → 1 ⇄ 2: the depth cap drives the cycle to layers
49–50, leaving layers 1‥48 empty. -/
def exScriptCycleNodes : List ScriptNode :=
  [exSNode 0 NodeType.START (some 1), exSNode 1 NodeType.DIALOGUE (some 2),
   exSNode 2 NodeType.DIALOGUE (some 1)]

/-! # Supporting lemmas -/

theorem Q.le_refl (a : Q) : Q.le a a := Int.le_refl _

theorem Q.le_max_left (a b : Q) : Q.le a (Q.max a b) := by
  unfold Q.max
  split
  · exact Int.le_of_lt (by assumption)
  · exact Q.le_refl a

theorem recGet_recSet_self {α : Type} (m : List (Id × α)) (k : Id) (v : α) :
    recGet (recSet m k v) k = some v := by
  induction m with
  | nil => simp [recSet, recGet]
  | cons p m ih =>
    by_cases h : p.1 = k
    · simp [recSet, recGet, h]
    · simp [recSet, recGet, h, ih]

theorem recGet_recSet_ne {α : Type} (m : List (Id × α)) (k k' : Id) (v : α)
    (h : k' ≠ k) : recGet (recSet m k v) k' = recGet m k' := by
  induction m with
  | nil =>
    simp only [recSet, recGet]
    rw [if_neg (fun hh : k = k' => h hh.symm)]
  | cons p m ih =>
    by_cases hp : p.1 = k
    · subst hp
      simp only [recSet, if_pos rfl, recGet]
      rw [if_neg (fun hh : p.1 = k' => h hh.symm)]
      rw [if_neg (fun hh : p.1 = k' => h hh.symm)]
    · simp only [recSet, if_neg hp, recGet]
      by_cases hp' : p.1 = k'
      · rw [if_pos hp', if_pos hp']
      · rw [if_neg hp', if_neg hp', ih]

theorem mem_recSet {α : Type} (m : List (Id × α)) (k : Id) (v : α) :
    ∀ p ∈ recSet m k v, p = (k, v) ∨ p ∈ m := by
  induction m with
  | nil =>
    intro p hp
    simp only [recSet, List.mem_singleton] at hp
    exact Or.inl hp
  | cons q m ih =>
    intro p hp
    by_cases h : q.1 = k
    · simp only [recSet, if_pos h, List.mem_cons] at hp
      rcases hp with hp | hp
      · exact Or.inl hp
      · exact Or.inr (List.mem_cons_of_mem q hp)
    · simp only [recSet, if_neg h, List.mem_cons] at hp
      rcases hp with hp | hp
      · exact Or.inr (hp ▸ List.mem_cons_self q m)
      · rcases ih p hp with h' | h'
        · exact Or.inl h'
        · exact Or.inr (List.mem_cons_of_mem q h')

/-- A present key has a value. -/
theorem recGet_isSome_of_mem_keys {α : Type} (m : List (Id × α)) (k : Id)
    (h : k ∈ m.map Prod.fst) : (recGet m k).isSome := by
  induction m with
  | nil => simp at h
  | cons p m ih =>
    by_cases hp : p.1 = k
    · simp [recGet, hp]
    · rw [List.map_cons, List.mem_cons] at h
      rcases h with h | h
      · exact absurd h.symm hp
      · simp only [recGet, if_neg hp]
        exact ih h

theorem mem_keys_of_recGet_isSome {α : Type} (m : List (Id × α)) (k : Id)
    (h : (recGet m k).isSome) : k ∈ m.map Prod.fst := by
  induction m with
  | nil => simp [recGet] at h
  | cons p m ih =>
    by_cases hp : p.1 = k
    · rw [List.map_cons]
      exact hp ▸ List.mem_cons_self p.1 (m.map Prod.fst)
    · simp only [recGet, if_neg hp] at h
      exact List.mem_cons_of_mem p.1 (ih h)

theorem keys_recSet {α : Type} (m : List (Id × α)) (k : Id) (v : α) :
    ((recSet m k v).map Prod.fst) =
      if (recGet m k).isSome then m.map Prod.fst else m.map Prod.fst ++ [k] := by
  induction m with
  | nil => simp [recSet, recGet]
  | cons p m ih =>
    by_cases h : p.1 = k
    · simp [recSet, recGet, h]
    · simp only [recSet, if_neg h, List.map_cons, recGet]
      rw [ih]
      by_cases hs : (recGet m k).isSome
      · rw [if_pos hs, if_pos hs]
      · rw [if_neg hs, if_neg hs, List.cons_append]

theorem nodup_keys_recSet {α : Type} (m : List (Id × α)) (k : Id) (v : α)
    (h : (m.map Prod.fst).Nodup) : ((recSet m k v).map Prod.fst).Nodup := by
  rw [keys_recSet]
  by_cases hs : (recGet m k).isSome
  · rw [if_pos hs]; exact h
  · rw [if_neg hs]
    rw [List.nodup_append]
    refine ⟨h, List.nodup_singleton k, ?_⟩
    intro a ha hb
    rw [List.mem_singleton] at hb
    subst hb
    exact hs (recGet_isSome_of_mem_keys m a ha)

theorem mem_of_recGet_eq_some {α : Type} (m : List (Id × α)) (k : Id) (v : α)
    (h : recGet m k = some v) : (k, v) ∈ m := by
  induction m with
  | nil => simp [recGet] at h
  | cons p m ih =>
    by_cases hp : p.1 = k
    · simp only [recGet, if_pos hp] at h
      have : p = (k, v) := by
        cases p
        simp only [Option.some.injEq] at h
        simp_all
      exact this ▸ List.mem_cons_self p m
  -- remaining: key deeper in the list
    · simp only [recGet, if_neg hp] at h
      exact List.mem_cons_of_mem p (ih h)

/-- With nodup keys, membership and lookup agree. -/
theorem recGet_eq_some_iff_mem {α : Type} (m : List (Id × α)) (k : Id) (v : α)
    (hnd : (m.map Prod.fst).Nodup) : recGet m k = some v ↔ (k, v) ∈ m := by
  constructor
  · exact mem_of_recGet_eq_some m k v
  · intro hmem
    induction m with
    | nil => simp at hmem
    | cons p m ih =>
      rw [List.map_cons, List.nodup_cons] at hnd
      rw [List.mem_cons] at hmem
      rcases hmem with hmem | hmem
      · subst hmem
        simp [recGet]
      · by_cases hp : p.1 = k
        · exfalso
          apply hnd.1
          rw [hp]
          exact List.mem_map_of_mem Prod.fst hmem
        · simp only [recGet, if_neg hp]
          exact ih hnd.2 hmem

theorem insertByKey_perm {α : Type} (key : α → Q) (x : α) (l : List α) :
    (insertByKey key x l).Perm (x :: l) := by
  induction l with
  | nil => simp [insertByKey]
  | cons y ys ih =>
    simp only [insertByKey]
    split
    · exact (ih.cons y).trans (List.Perm.swap x y ys)
    · exact List.Perm.refl _

theorem sortByKey_perm {α : Type} (key : α → Q) (l : List α) :
    (sortByKey key l).Perm l := by
  induction l with
  | nil => simp [sortByKey]
  | cons x xs ih => exact (insertByKey_perm key x (sortByKey key xs)).trans (ih.cons x)

theorem mem_sortByKey {α : Type} (key : α → Q) (l : List α) (a : α) :
    a ∈ sortByKey key l ↔ a ∈ l := (sortByKey_perm key l).mem_iff

theorem le_foldl_max (l : List (Id × List Id)) :
    ∀ a : Nat, a ≤ l.foldl (fun m p => Nat.max m p.2.length) a := by
  induction l with
  | nil => intro a; simp
  | cons x xs ih =>
    intro a
    exact le_trans (Nat.le_max_left a x.2.length) (ih _)

theorem foldl_max_ge (l : List (Id × List Id)) :
    ∀ (a : Nat), ∀ p ∈ l, p.2.length ≤ l.foldl (fun m q => Nat.max m q.2.length) a := by
  induction l with
  | nil => intro a p hp; simp at hp
  | cons x xs ih =>
    intro a p hp
    rw [List.mem_cons] at hp
    rcases hp with hp | hp
    · subst hp
      exact le_trans (Nat.le_max_right a p.2.length) (le_foldl_max xs _)
    · exact ih _ p hp

theorem length_le_maxArity (adj : List (Id × List Id)) (i : Id) (c : List Id)
    (h : recGet adj i = some c) : c.length ≤ maxArity adj :=
  foldl_max_ge adj 0 (i, c) (mem_of_recGet_eq_some adj i c h)

theorem queueMeasure_append (D : Nat) (q r : List (Id × Nat)) :
    queueMeasure D (q ++ r) = queueMeasure D q + queueMeasure D r := by
  simp [queueMeasure]

theorem entryWeight_pos (D layer : Nat) : 0 < entryWeight D layer :=
  Nat.pos_pow_of_pos _ (Nat.succ_pos D)

theorem queueMeasure_pushes_lt (adj : List (Id × List Id)) (i : Id) (layer : Nat) :
    queueMeasure (maxArity adj) (bfsPushes adj i layer) < entryWeight (maxArity adj) layer := by
  set D := maxArity adj with hD
  unfold bfsPushes
  split
  · rename_i hlt
    have hmin : Nat.min layer 51 = layer := Nat.min_eq_left (by omega)
    have hmin' : Nat.min (layer + 1) 51 = layer + 1 := Nat.min_eq_left (by omega)
    have hlen : ((recGet adj i).getD []).length ≤ D := by
      cases hget : recGet adj i with
      | none => simp
      | some c => simpa using length_le_maxArity adj i c hget
    have hsum : queueMeasure D (((recGet adj i).getD []).map (fun c => (c, layer + 1)))
        = ((recGet adj i).getD []).length * entryWeight D (layer + 1) := by
      unfold queueMeasure
      generalize (recGet adj i).getD [] = cs
      induction cs with
      | nil => simp
      | cons c cs ih =>
        simp only [List.map_cons, List.map_map, List.sum_cons, List.length_cons]
        simp only [List.map_map] at ih
        rw [ih]
        ring
    rw [hsum]
    unfold entryWeight
    rw [hmin, hmin']
    have hexp : 51 - layer = (51 - (layer + 1)) + 1 := by omega
    rw [hexp, pow_succ]
    calc ((recGet adj i).getD []).length * (D + 1) ^ (51 - (layer + 1))
        ≤ D * (D + 1) ^ (51 - (layer + 1)) :=
          Nat.mul_le_mul_right _ hlen
      _ < (D + 1) ^ (51 - (layer + 1)) * (D + 1) := by
          rw [Nat.mul_comm]
          exact Nat.mul_lt_mul_of_pos_left (Nat.lt_succ_self D)
            (Nat.pos_pow_of_pos _ (Nat.succ_pos D))
  · simpa [queueMeasure] using entryWeight_pos (maxArity adj) layer

/-- With fuel at least the queue weight, the BFS queue drains completely:
the loop terminates on every input. -/
theorem bfsRun_drains (adj : List (Id × List Id)) :
    ∀ (fuel : Nat) (nl q : List (Id × Nat)),
      queueMeasure (maxArity adj) q ≤ fuel → (bfsRun adj fuel nl q).2 = [] := by
  intro fuel
  induction fuel with
  | zero =>
    intro nl q h
    cases q with
    | nil => simp [bfsRun]
    | cons e rest =>
      exfalso
      have : 0 < queueMeasure (maxArity adj) (e :: rest) := by
        have := entryWeight_pos (maxArity adj) e.2
        simp [queueMeasure]
        omega
      omega
  | succ fuel ih =>
    intro nl q h
    cases q with
    | nil => simp [bfsRun]
    | cons e rest =>
      obtain ⟨i, layer⟩ := e
      have hw := entryWeight_pos (maxArity adj) layer
      have hq : queueMeasure (maxArity adj) ((i, layer) :: rest)
          = entryWeight (maxArity adj) layer + queueMeasure (maxArity adj) rest := by
        simp [queueMeasure]
      have hpush := queueMeasure_pushes_lt adj i layer
      simp only [bfsRun]
      cases hget : recGet nl i with
      | some l =>
        by_cases hle : layer ≤ l
        · simp only [hle, if_true]
          exact ih nl rest (by omega)
        · simp only [hle, if_false]
          apply ih
          rw [queueMeasure_append]
          omega
      | none =>
        apply ih
        rw [queueMeasure_append]
        omega

/-- An assigned layer is never decreased by later queue processing: the guard
discards entries whose layer does not exceed the current assignment, and an
overwrite stores a strictly larger layer. -/
theorem bfsRun_mono (adj : List (Id × List Id)) :
    ∀ (fuel : Nat) (nl q : List (Id × Nat)) (j : Id) (l : Nat),
      recGet nl j = some l →
      ∃ l', recGet (bfsRun adj fuel nl q).1 j = some l' ∧ l ≤ l' := by
  intro fuel
  induction fuel with
  | zero =>
    intro nl q j l h
    exact ⟨l, h, le_refl l⟩
  | succ fuel ih =>
    intro nl q j l h
    cases q with
    | nil => exact ⟨l, h, le_refl l⟩
    | cons e rest =>
      obtain ⟨i, layer⟩ := e
      simp only [bfsRun]
      cases hget : recGet nl i with
      | some cur =>
        by_cases hle : layer ≤ cur
        · simp only [hle, if_true]
          exact ih nl rest j l h
        · simp only [hle, if_false]
          by_cases hij : j = i
          · subst hij
            have : l = cur := by rw [h] at hget; exact Option.some.inj hget
            subst this
            obtain ⟨l', hl', hle'⟩ := ih (recSet nl j layer) _ j layer
              (recGet_recSet_self nl j layer)
            exact ⟨l', hl', le_trans (Nat.le_of_lt (Nat.lt_of_not_le hle)) hle'⟩
          · obtain ⟨l', hl', hle'⟩ := ih (recSet nl i layer) _ j l
              (by rw [recGet_recSet_ne nl i j layer hij]; exact h)
            exact ⟨l', hl', hle'⟩
      | none =>
        by_cases hij : j = i
        · subst hij
          rw [h] at hget
          cases hget
        · obtain ⟨l', hl', hle'⟩ := ih (recSet nl i layer) _ j l
            (by rw [recGet_recSet_ne nl i j layer hij]; exact h)
          exact ⟨l', hl', hle'⟩

/-- Every layer value the BFS ever stores is at most 50: children are enqueued
at `layer + 1` only when `layer < 50`. -/
theorem bfsRun_layer_bound (adj : List (Id × List Id)) :
    ∀ (fuel : Nat) (nl q : List (Id × Nat)),
      (∀ p ∈ nl, p.2 ≤ 50) → (∀ e ∈ q, e.2 ≤ 50) →
      ∀ p ∈ (bfsRun adj fuel nl q).1, p.2 ≤ 50 := by
  intro fuel
  induction fuel with
  | zero => intro nl q hnl hq; exact hnl
  | succ fuel ih =>
    intro nl q hnl hq
    cases q with
    | nil => simpa [bfsRun] using hnl
    | cons e rest =>
      obtain ⟨i, layer⟩ := e
      have hlayer : layer ≤ 50 := hq (i, layer) (List.mem_cons_self _ _)
      have hrest : ∀ e ∈ rest, e.2 ≤ 50 := fun e he => hq e (List.mem_cons_of_mem _ he)
      have hset : ∀ p ∈ recSet nl i layer, p.2 ≤ 50 := by
        intro p hp
        rcases mem_recSet nl i layer p hp with h | h
        · rw [h]; exact hlayer
        · exact hnl p h
      have hpushes : ∀ e ∈ rest ++ bfsPushes adj i layer, e.2 ≤ 50 := by
        intro e he
        rw [List.mem_append] at he
        rcases he with he | he
        · exact hrest e he
        · unfold bfsPushes at he
          by_cases hcap : layer < 50
          · rw [if_pos hcap] at he
            obtain ⟨c, _, rfl⟩ := List.mem_map.mp he
            omega
          · rw [if_neg hcap] at he
            simp at he
      simp only [bfsRun]
      cases hget : recGet nl i with
      | some cur =>
        by_cases hle : layer ≤ cur
        · simp only [hle, if_true]
          exact ih nl rest hnl hrest
        · simp only [hle, if_false]
          exact ih _ _ hset hpushes
      | none => exact ih _ _ hset hpushes

/-- The BFS map keeps nodup keys. -/
theorem bfsRun_nodup_keys (adj : List (Id × List Id)) :
    ∀ (fuel : Nat) (nl q : List (Id × Nat)),
      ((nl.map Prod.fst).Nodup) → (((bfsRun adj fuel nl q).1.map Prod.fst).Nodup) := by
  intro fuel
  induction fuel with
  | zero => intro nl q h; exact h
  | succ fuel ih =>
    intro nl q h
    cases q with
    | nil => simpa [bfsRun] using h
    | cons e rest =>
      obtain ⟨i, layer⟩ := e
      simp only [bfsRun]
      cases hget : recGet nl i with
      | some cur =>
        by_cases hle : layer ≤ cur
        · simp only [hle, if_true]; exact ih nl rest h
        · simp only [hle, if_false]
          exact ih _ _ (nodup_keys_recSet nl i layer h)
      | none => exact ih _ _ (nodup_keys_recSet nl i layer h)

theorem withFallback_nil {β : Type} (nl : List (Id × Nat)) (nid : β → Id) :
    withFallback nl [] nid = nl := rfl

theorem withFallback_cons {β : Type} (nl : List (Id × Nat)) (n : β) (ns : List β)
    (nid : β → Id) :
    withFallback nl (n :: ns) nid =
      withFallback (if (recGet nl (nid n)).isSome then nl else recSet nl (nid n) 0) ns nid := by
  simp only [withFallback, List.foldl_cons]

theorem withFallback_preserves {β : Type} (nodes : List β) (nid : β → Id) :
    ∀ (nl : List (Id × Nat)) (j : Id) (l : Nat),
      recGet nl j = some l → recGet (withFallback nl nodes nid) j = some l := by
  induction nodes with
  | nil => intro nl j l h; exact h
  | cons n ns ih =>
    intro nl j l h
    rw [withFallback_cons]
    by_cases hs : (recGet nl (nid n)).isSome
    · rw [if_pos hs]
      exact ih nl j l h
    · rw [if_neg hs]
      apply ih
      by_cases hj : j = nid n
      · subst hj
        rw [h] at hs
        simp at hs
      · rw [recGet_recSet_ne nl (nid n) j 0 hj]
        exact h

theorem withFallback_mem {β : Type} (nodes : List β) (nid : β → Id) :
    ∀ (nl : List (Id × Nat)) (n : β), n ∈ nodes →
      (recGet (withFallback nl nodes nid) (nid n)).isSome := by
  induction nodes with
  | nil => intro nl n h; simp at h
  | cons m ns ih =>
    intro nl n h
    rw [List.mem_cons] at h
    rw [withFallback_cons]
    rcases h with h | h
    · subst h
      by_cases hs : (recGet nl (nid n)).isSome
      · rw [if_pos hs]
        obtain ⟨l, hl⟩ := Option.isSome_iff_exists.mp hs
        rw [withFallback_preserves ns nid nl (nid n) l hl]
        rfl
      · rw [if_neg hs]
        rw [withFallback_preserves ns nid _ (nid n) 0 (recGet_recSet_self nl (nid n) 0)]
        rfl
    · by_cases hs : (recGet nl (nid m)).isSome
      · rw [if_pos hs]; exact ih nl n h
      · rw [if_neg hs]; exact ih _ n h

theorem withFallback_none {β : Type} (nodes : List β) (nid : β → Id) :
    ∀ (nl : List (Id × Nat)) (n : β), n ∈ nodes → recGet nl (nid n) = none →
      recGet (withFallback nl nodes nid) (nid n) = some 0 := by
  induction nodes with
  | nil => intro nl n h; simp at h
  | cons m ns ih =>
    intro nl n h hnone
    rw [List.mem_cons] at h
    rw [withFallback_cons]
    rcases h with h | h
    · subst h
      rw [if_neg (by rw [hnone]; simp)]
      exact withFallback_preserves ns nid _ (nid n) 0 (recGet_recSet_self nl (nid n) 0)
    · by_cases hs : (recGet nl (nid m)).isSome
      · rw [if_pos hs]; exact ih nl n h hnone
      · rw [if_neg hs]
        by_cases hnm : nid n = nid m
        · rw [hnm]
          exact withFallback_preserves ns nid _ (nid m) 0 (recGet_recSet_self nl (nid m) 0)
        · exact ih _ n h (by rw [recGet_recSet_ne nl (nid m) (nid n) 0 hnm]; exact hnone)

theorem withFallback_nodup_keys {β : Type} (nodes : List β) (nid : β → Id) :
    ∀ (nl : List (Id × Nat)), ((nl.map Prod.fst).Nodup) →
      (((withFallback nl nodes nid).map Prod.fst).Nodup) := by
  induction nodes with
  | nil => intro nl h; exact h
  | cons m ns ih =>
    intro nl h
    rw [withFallback_cons]
    by_cases hs : (recGet nl (nid m)).isSome
    · rw [if_pos hs]; exact ih nl h
    · rw [if_neg hs]; exact ih _ (nodup_keys_recSet nl (nid m) 0 h)

theorem mem_layerIds_iff (nl : List (Id × Nat)) (l : Nat) (i : Id) :
    i ∈ layerIds nl l ↔ (i, l) ∈ nl := by
  unfold layerIds
  rw [List.mem_map]
  constructor
  · rintro ⟨p, hp, rfl⟩
    rw [List.mem_filter] at hp
    have : p = (p.1, l) := by
      have := hp.2
      simp at this
      cases p
      simp_all
    exact this ▸ hp.1
  · intro h
    exact ⟨(i, l), List.mem_filter.mpr ⟨h, by simp⟩, rfl⟩

theorem le_foldl_nat_max (l : List Nat) : ∀ a : Nat, a ≤ l.foldl Nat.max a := by
  induction l with
  | nil => intro a; simp
  | cons x xs ih =>
    intro a
    exact le_trans (Nat.le_max_left a x) (ih _)

theorem foldl_nat_max_ge (l : List Nat) :
    ∀ (a : Nat), ∀ x ∈ l, x ≤ l.foldl Nat.max a := by
  induction l with
  | nil => intro a x hx; simp at hx
  | cons y ys ih =>
    intro a x hx
    rw [List.mem_cons] at hx
    rcases hx with hx | hx
    · subst hx
      exact le_trans (Nat.le_max_right a x) (le_foldl_nat_max ys _)
    · exact ih _ x hx

theorem mem_le_maxLayer (nl : List (Id × Nat)) (i : Id) (l : Nat)
    (h : (i, l) ∈ nl) : l ≤ maxLayer nl := by
  unfold maxLayer
  exact foldl_nat_max_ge _ 0 l (by exact List.mem_map.mpr ⟨(i, l), h, rfl⟩)

theorem map_replaceFirstById {α β : Type} (nid : α → Id) (j : Id) (b node : α)
    (f : α → β) :
    ∀ (l : List α), l.find? (fun a => nid a = j) = some node → f b = f node →
      (replaceFirstById nid j b l).map f = l.map f := by
  intro l
  induction l with
  | nil => intro h; simp at h
  | cons n rest ih =>
    intro h hfb
    by_cases hn : nid n = j
    · rw [List.find?_cons_of_pos _ (by simpa using hn)] at h
      cases h
      simp only [replaceFirstById, if_pos hn, List.map_cons]
      rw [hfb]
    · rw [List.find?_cons_of_neg _ (by simpa using hn)] at h
      simp only [replaceFirstById, if_neg hn, List.map_cons]
      rw [ih h hfb]

namespace OutlineView

theorem placeNode_map_clearPos (revAdj : List (Id × List Id)) (nl : List (Id × Nat))
    (l : Nat) (st : List OutlineNode × Q) (nid : Id) :
    (placeNode revAdj nl l st nid).1.map clearPosO = st.1.map clearPosO := by
  unfold placeNode
  split
  · rfl
  · rename_i node hget
    show ((replaceFirstById OutlineNode.id nid _ st.1).map clearPosO) = st.1.map clearPosO
    exact map_replaceFirstById OutlineNode.id nid _ node clearPosO st.1 hget rfl

theorem placeFold_map_clearPos (revAdj : List (Id × List Id)) (nl : List (Id × Nat))
    (l : Nat) :
    ∀ (bucket : List Id) (st : List OutlineNode × Q),
      ((bucket.foldl (placeNode revAdj nl l) st).1).map clearPosO = st.1.map clearPosO := by
  intro bucket
  induction bucket with
  | nil => intro st; rfl
  | cons nid rest ih =>
    intro st
    rw [List.foldl_cons, ih (placeNode revAdj nl l st nid)]
    exact placeNode_map_clearPos revAdj nl l st nid

theorem layersFold_map_clearPos (revAdj : List (Id × List Id)) (nl : List (Id × Nat))
    (bs : List (List Id)) :
    ∀ (ls : List Nat) (acc : List OutlineNode),
      ((ls.foldl (fun acc l => placeLayer revAdj nl l acc (bs.getD l [])) acc).map clearPosO)
        = acc.map clearPosO := by
  intro ls
  induction ls with
  | nil => intro acc; rfl
  | cons l ls ih =>
    intro acc
    rw [List.foldl_cons, ih]
    exact placeFold_map_clearPos revAdj nl l (bs.getD l []) (acc, qI 100)

theorem laidNodes_map_clearPos (nodes : List OutlineNode) (edges : List OutlineEdge) :
    (laidNodes nodes edges).map clearPosO = nodes.map clearPosO :=
  layersFold_map_clearPos (buildGraph nodes edges).revAdj (nodeLayer nodes edges)
    (sortedBuckets nodes edges) (List.range (maxLayer (nodeLayer nodes edges) + 1)) nodes

/-- The id sequence of the output equals that of the input. -/
theorem laidNodes_ids (nodes : List OutlineNode) (edges : List OutlineEdge) :
    (laidNodes nodes edges).map OutlineNode.id = nodes.map OutlineNode.id := by
  have h := laidNodes_map_clearPos nodes edges
  have h2 := congrArg (List.map OutlineNode.id) h
  simpa [Function.comp, clearPosO] using h2

end OutlineView

namespace GraphView

theorem placeNode_map_clearPos_s (vo : ViewOptions) (l : Nat) (st : List ScriptNode × Q)
    (nid : Id) :
    (placeNode vo l st nid).1.map clearPosS = st.1.map clearPosS := by
  unfold placeNode
  split
  · rfl
  · rename_i node hget
    show ((replaceFirstById ScriptNode.id nid _ st.1).map clearPosS) = st.1.map clearPosS
    exact map_replaceFirstById ScriptNode.id nid _ node clearPosS st.1 hget rfl

theorem placeFold_map_clearPos_s (vo : ViewOptions) (l : Nat) :
    ∀ (bucket : List Id) (st : List ScriptNode × Q),
      ((bucket.foldl (placeNode vo l) st).1).map clearPosS = st.1.map clearPosS := by
  intro bucket
  induction bucket with
  | nil => intro st; rfl
  | cons nid rest ih =>
    intro st
    rw [List.foldl_cons, ih (placeNode vo l st nid)]
    exact placeNode_map_clearPos_s vo l st nid

theorem layersFold_map_clearPos_s (vo : ViewOptions) (bs : List (List Id)) :
    ∀ (ls : List Nat) (acc : List ScriptNode),
      ((ls.foldl (fun acc l => placeLayer vo l acc (bs.getD l [])) acc).map clearPosS)
        = acc.map clearPosS := by
  intro ls
  induction ls with
  | nil => intro acc; rfl
  | cons l ls ih =>
    intro acc
    rw [List.foldl_cons, ih]
    exact placeFold_map_clearPos_s vo l (bs.getD l []) (acc, qI 100)

theorem laidNodes_map_clearPos_s (vo : ViewOptions) (nodes : List ScriptNode) :
    (laidNodes vo nodes).map clearPosS = nodes.map clearPosS :=
  layersFold_map_clearPos_s vo (sortedBuckets nodes)
    (List.range (maxLayer (nodeLayer nodes) + 1)) nodes

theorem laidNodes_ids_s (vo : ViewOptions) (nodes : List ScriptNode) :
    (laidNodes vo nodes).map ScriptNode.id = nodes.map ScriptNode.id := by
  have h := laidNodes_map_clearPos_s vo nodes
  have h2 := congrArg (List.map ScriptNode.id) h
  simpa [Function.comp, clearPosS] using h2

end GraphView

/-! ### Graph-builder characterizations -/

namespace OutlineView

theorem initGraph_inDegree_keeps_zero (t : Id) :
    ∀ (nodes : List OutlineNode) (g : Graph), recGet g.inDegree t = some 0 →
      recGet (nodes.foldl
        (fun g n =>
          { adj := recSet g.adj n.id [],
            revAdj := recSet g.revAdj n.id [],
            inDegree :=
              if (recGet g.inDegree n.id).isSome then g.inDegree
              else recSet g.inDegree n.id 0 }) g).inDegree t = some 0 := by
  intro nodes
  induction nodes with
  | nil => intro g h; exact h
  | cons n ns ih =>
    intro g h
    rw [List.foldl_cons]
    apply ih
    by_cases hs : (recGet g.inDegree n.id).isSome
    · show recGet (if (recGet g.inDegree n.id).isSome then _ else _) t = some 0
      rw [if_pos hs]
      exact h
    · show recGet (if (recGet g.inDegree n.id).isSome then _ else _) t = some 0
      rw [if_neg hs]
      by_cases ht : t = n.id
      · subst ht
        rw [h] at hs
        simp at hs
      · rw [recGet_recSet_ne _ _ _ _ ht]
        exact h

theorem initGraph_inDegree_zero (t : Id) :
    ∀ (nodes : List OutlineNode) (g : Graph),
      t ∈ nodes.map OutlineNode.id →
      (recGet g.inDegree t = none ∨ recGet g.inDegree t = some 0) →
      recGet (nodes.foldl
        (fun g n =>
          { adj := recSet g.adj n.id [],
            revAdj := recSet g.revAdj n.id [],
            inDegree :=
              if (recGet g.inDegree n.id).isSome then g.inDegree
              else recSet g.inDegree n.id 0 }) g).inDegree t = some 0 := by
  intro nodes
  induction nodes with
  | nil => intro g h; simp at h
  | cons n ns ih =>
    intro g hmem hg
    rw [List.map_cons, List.mem_cons] at hmem
    rw [List.foldl_cons]
    by_cases ht : t = n.id
    · subst ht
      rcases hg with hg | hg
      · apply initGraph_inDegree_keeps_zero
        show recGet (if (recGet g.inDegree n.id).isSome then _ else _) n.id = some 0
        rw [if_neg (by rw [hg]; simp)]
        exact recGet_recSet_self g.inDegree n.id 0
      · apply initGraph_inDegree_keeps_zero
        show recGet (if (recGet g.inDegree n.id).isSome then _ else _) n.id = some 0
        rw [if_pos (by rw [hg]; rfl)]
        exact hg
    · rcases hmem with hmem | hmem
      · exact absurd hmem ht
      · apply ih _ hmem
        by_cases hs : (recGet g.inDegree n.id).isSome
        · show recGet (if (recGet g.inDegree n.id).isSome then _ else _) t = none
            ∨ recGet (if (recGet g.inDegree n.id).isSome then _ else _) t = some 0
          rw [if_pos hs]
          exact hg
        · show recGet (if (recGet g.inDegree n.id).isSome then _ else _) t = none
            ∨ recGet (if (recGet g.inDegree n.id).isSome then _ else _) t = some 0
          rw [if_neg hs]
          rw [recGet_recSet_ne _ _ _ _ ht]
          exact hg

theorem addEdge_fold_inDegree (t : Id) :
    ∀ (edges : List OutlineEdge) (g : Graph) (k : Nat), recGet g.inDegree t = some k →
      recGet ((edges.foldl addEdge g).inDegree) t
        = some (k + edges.countP (fun e => e.targetId = t)) := by
  intro edges
  induction edges with
  | nil => intro g k h; simpa using h
  | cons e es ih =>
    intro g k h
    rw [List.foldl_cons, List.countP_cons]
    by_cases ht : e.targetId = t
    · have hstep : recGet (addEdge g e).inDegree t = some (k + 1) := by
        show recGet (recSet g.inDegree e.targetId ((recGet g.inDegree e.targetId).getD 0 + 1)) t
          = some (k + 1)
        rw [ht, recGet_recSet_self, h]
        rfl
      rw [ih _ _ hstep]
      congr 1
      simp only [ht, decide_True, if_true]
      omega
    · have hstep : recGet (addEdge g e).inDegree t = some k := by
        show recGet (recSet g.inDegree e.targetId ((recGet g.inDegree e.targetId).getD 0 + 1)) t
          = some k
        rw [recGet_recSet_ne _ _ _ _ (fun hh => ht hh.symm)]
        exact h
      rw [ih _ _ hstep]
      congr 1
      simp [ht]

/-- In-degree of a real node id = the number of edge records targeting it
(duplicate records each count). -/
theorem buildGraph_inDegree (nodes : List OutlineNode) (edges : List OutlineEdge)
    (t : Id) (h : t ∈ nodes.map OutlineNode.id) :
    recGet (buildGraph nodes edges).inDegree t
      = some (edges.countP (fun e => e.targetId = t)) := by
  unfold buildGraph
  have h0 : recGet (initGraph nodes).inDegree t = some 0 := by
    unfold initGraph
    exact initGraph_inDegree_zero t nodes _ h (Or.inl rfl)
  have := addEdge_fold_inDegree t edges (initGraph nodes) 0 h0
  simpa using this

theorem initGraph_revAdj_none (t : Id) :
    ∀ (nodes : List OutlineNode) (g : Graph),
      recGet g.revAdj t = none → t ∉ nodes.map OutlineNode.id →
      recGet (nodes.foldl
        (fun g n =>
          { adj := recSet g.adj n.id [],
            revAdj := recSet g.revAdj n.id [],
            inDegree :=
              if (recGet g.inDegree n.id).isSome then g.inDegree
              else recSet g.inDegree n.id 0 }) g).revAdj t = none := by
  intro nodes
  induction nodes with
  | nil => intro g h _; exact h
  | cons n ns ih =>
    intro g h hmem
    rw [List.map_cons, List.mem_cons] at hmem
    push_neg at hmem
    rw [List.foldl_cons]
    refine ih _ ?_ hmem.2
    show recGet (recSet g.revAdj n.id []) t = none
    rw [recGet_recSet_ne _ _ _ _ hmem.1]
    exact h

theorem addEdge_fold_revAdj_none (t : Id) :
    ∀ (edges : List OutlineEdge) (g : Graph), recGet g.revAdj t = none →
      recGet ((edges.foldl addEdge g).revAdj) t = none := by
  intro edges
  induction edges with
  | nil => intro g h; exact h
  | cons e es ih =>
    intro g h
    rw [List.foldl_cons]
    apply ih
    unfold addEdge
    simp only
    cases hget : recGet g.revAdj e.targetId with
    | none => exact h
    | some lst =>
      by_cases ht : t = e.targetId
      · subst ht
        rw [h] at hget
        cases hget
      · rw [recGet_recSet_ne _ _ _ _ ht]
        exact h

/-- An id that is not a node id has no reverse-adjacency entry. -/
theorem buildGraph_revAdj_none (nodes : List OutlineNode) (edges : List OutlineEdge)
    (t : Id) (h : t ∉ nodes.map OutlineNode.id) :
    recGet (buildGraph nodes edges).revAdj t = none := by
  unfold buildGraph
  apply addEdge_fold_revAdj_none
  unfold initGraph
  exact initGraph_revAdj_none t nodes _ (by rfl) h

/-- Each seed entry carries layer 0. -/
theorem seeds_snd_zero (nodes : List OutlineNode) (g : Graph) :
    ∀ e ∈ seeds nodes g, e.2 = 0 := by
  intro e he
  simp only [seeds] at he
  by_cases hroots :
      ((nodes.filter (fun n => recGet g.inDegree n.id = some 0)).map
        (fun n => (n.id, (0 : Nat)))) = []
  · rw [if_pos hroots] at he
    cases nodes with
    | nil => simp at he
    | cons n ns =>
      rw [List.mem_singleton] at he
      rw [he]
  · rw [if_neg hroots] at he
    obtain ⟨n, _, rfl⟩ := List.mem_map.mp he
    rfl

end OutlineView

namespace GraphView

theorem dedup_fold_nodup :
    ∀ (l acc : List Id), acc.Nodup →
      (l.foldl (fun acc t => if t ∈ acc then acc else acc ++ [t]) acc).Nodup := by
  intro l
  induction l with
  | nil => intro acc h; exact h
  | cons t ts ih =>
    intro acc h
    rw [List.foldl_cons]
    by_cases hm : t ∈ acc
    · simpa [hm] using ih acc h
    · simp only [hm, if_false]
      apply ih
      simp [List.nodup_append, h, hm]

/-- The deduplicated target list of a source node has no duplicates: each
distinct (source, target) pair is recorded once. -/
theorem uniqueTargets_nodup (n : ScriptNode) : (uniqueTargets n).Nodup := by
  unfold uniqueTargets
  exact dedup_fold_nodup _ [] List.nodup_nil

theorem initGraph_inDegree_keeps_zero_s (t : Id) :
    ∀ (nodes : List ScriptNode) (g : Graph), recGet g.inDegree t = some 0 →
      recGet (nodes.foldl
        (fun g n =>
          { adj := recSet g.adj n.id [],
            revAdj := recSet g.revAdj n.id [],
            inDegree :=
              if (recGet g.inDegree n.id).isSome then g.inDegree
              else recSet g.inDegree n.id 0 }) g).inDegree t = some 0 := by
  intro nodes
  induction nodes with
  | nil => intro g h; exact h
  | cons n ns ih =>
    intro g h
    rw [List.foldl_cons]
    apply ih
    by_cases hs : (recGet g.inDegree n.id).isSome
    · show recGet (if (recGet g.inDegree n.id).isSome then _ else _) t = some 0
      rw [if_pos hs]
      exact h
    · show recGet (if (recGet g.inDegree n.id).isSome then _ else _) t = some 0
      rw [if_neg hs]
      by_cases ht : t = n.id
      · subst ht
        rw [h] at hs
        simp at hs
      · rw [recGet_recSet_ne _ _ _ _ ht]
        exact h

theorem initGraph_inDegree_zero_s (t : Id) :
    ∀ (nodes : List ScriptNode) (g : Graph),
      t ∈ nodes.map ScriptNode.id →
      (recGet g.inDegree t = none ∨ recGet g.inDegree t = some 0) →
      recGet (nodes.foldl
        (fun g n =>
          { adj := recSet g.adj n.id [],
            revAdj := recSet g.revAdj n.id [],
            inDegree :=
              if (recGet g.inDegree n.id).isSome then g.inDegree
              else recSet g.inDegree n.id 0 }) g).inDegree t = some 0 := by
  intro nodes
  induction nodes with
  | nil => intro g h; simp at h
  | cons n ns ih =>
    intro g hmem hg
    rw [List.map_cons, List.mem_cons] at hmem
    rw [List.foldl_cons]
    by_cases ht : t = n.id
    · subst ht
      rcases hg with hg | hg
      · apply initGraph_inDegree_keeps_zero_s
        show recGet (if (recGet g.inDegree n.id).isSome then _ else _) n.id = some 0
        rw [if_neg (by rw [hg]; simp)]
        exact recGet_recSet_self g.inDegree n.id 0
      · apply initGraph_inDegree_keeps_zero_s
        show recGet (if (recGet g.inDegree n.id).isSome then _ else _) n.id = some 0
        rw [if_pos (by rw [hg]; rfl)]
        exact hg
    · rcases hmem with hmem | hmem
      · exact absurd hmem ht
      · apply ih _ hmem
        by_cases hs : (recGet g.inDegree n.id).isSome
        · show recGet (if (recGet g.inDegree n.id).isSome then _ else _) t = none
            ∨ recGet (if (recGet g.inDegree n.id).isSome then _ else _) t = some 0
          rw [if_pos hs]
          exact hg
        · show recGet (if (recGet g.inDegree n.id).isSome then _ else _) t = none
            ∨ recGet (if (recGet g.inDegree n.id).isSome then _ else _) t = some 0
          rw [if_neg hs]
          rw [recGet_recSet_ne _ _ _ _ ht]
          exact hg

theorem targets_fold_inDegree (t : Id) (nid : Id) :
    ∀ (ts : List Id), ts.Nodup → ∀ (g : Graph) (k : Nat), recGet g.inDegree t = some k →
      recGet ((ts.foldl (addTargetEdge nid) g).inDegree) t
        = some (k + if t ∈ ts then 1 else 0) := by
  intro ts
  induction ts with
  | nil => intro _ g k h; simpa using h
  | cons u ts ih =>
    intro hnd g k h
    rw [List.foldl_cons]
    rw [List.nodup_cons] at hnd
    by_cases ht : u = t
    · subst ht
      have hstep : recGet (addTargetEdge nid g u).inDegree u = some (k + 1) := by
        show recGet (recSet g.inDegree u ((recGet g.inDegree u).getD 0 + 1)) u = some (k + 1)
        rw [recGet_recSet_self, h]
        rfl
      have := ih hnd.2 _ _ hstep
      rw [this]
      rw [if_neg hnd.1, if_pos (List.mem_cons_self u ts)]
    · have hstep : recGet (addTargetEdge nid g u).inDegree t = some k := by
        show recGet (recSet g.inDegree u ((recGet g.inDegree u).getD 0 + 1)) t = some k
        rw [recGet_recSet_ne _ _ _ _ (fun hh => ht hh.symm)]
        exact h
      have := ih hnd.2 _ _ hstep
      rw [this]
      by_cases hmem : t ∈ ts
      · rw [if_pos hmem, if_pos (List.mem_cons_of_mem u hmem)]
      · rw [if_neg hmem, if_neg (by
          rw [List.mem_cons]
          push_neg
          exact ⟨fun hh => ht hh.symm, hmem⟩)]

theorem addNodeEdges_fold_inDegree (t : Id) :
    ∀ (nodes : List ScriptNode) (g : Graph) (k : Nat), recGet g.inDegree t = some k →
      recGet ((nodes.foldl addNodeEdges g).inDegree) t
        = some (k + nodes.countP (fun n => t ∈ uniqueTargets n)) := by
  intro nodes
  induction nodes with
  | nil => intro g k h; simpa using h
  | cons n ns ih =>
    intro g k h
    rw [List.foldl_cons, List.countP_cons]
    have hstep : recGet (addNodeEdges g n).inDegree t
        = some (k + if t ∈ uniqueTargets n then 1 else 0) := by
      unfold addNodeEdges
      exact targets_fold_inDegree t n.id (uniqueTargets n) (uniqueTargets_nodup n) g k h
    rw [ih _ _ hstep]
    congr 1
    by_cases hmem : t ∈ uniqueTargets n
    · simp [hmem]
      omega
    · simp [hmem]

/-- In-degree of a real node id = the number of source nodes that list it
among their deduplicated targets: once per distinct (source, target) pair. -/
theorem buildGraph_inDegree_s (nodes : List ScriptNode) (t : Id)
    (h : t ∈ nodes.map ScriptNode.id) :
    recGet (buildGraph nodes).inDegree t
      = some (nodes.countP (fun n => t ∈ uniqueTargets n)) := by
  unfold buildGraph
  have h0 : recGet (initGraph nodes).inDegree t = some 0 := by
    unfold initGraph
    exact initGraph_inDegree_zero_s t nodes _ h (Or.inl rfl)
  have := addNodeEdges_fold_inDegree t nodes (initGraph nodes) 0 h0
  simpa using this

theorem initGraph_revAdj_none_s (t : Id) :
    ∀ (nodes : List ScriptNode) (g : Graph),
      recGet g.revAdj t = none → t ∉ nodes.map ScriptNode.id →
      recGet (nodes.foldl
        (fun g n =>
          { adj := recSet g.adj n.id [],
            revAdj := recSet g.revAdj n.id [],
            inDegree :=
              if (recGet g.inDegree n.id).isSome then g.inDegree
              else recSet g.inDegree n.id 0 }) g).revAdj t = none := by
  intro nodes
  induction nodes with
  | nil => intro g h _; exact h
  | cons n ns ih =>
    intro g h hmem
    rw [List.map_cons, List.mem_cons] at hmem
    push_neg at hmem
    rw [List.foldl_cons]
    refine ih _ ?_ hmem.2
    show recGet (recSet g.revAdj n.id []) t = none
    rw [recGet_recSet_ne _ _ _ _ hmem.1]
    exact h

theorem addNodeEdges_fold_revAdj_none (t : Id) :
    ∀ (nodes : List ScriptNode) (g : Graph), recGet g.revAdj t = none →
      recGet ((nodes.foldl addNodeEdges g).revAdj) t = none := by
  intro nodes
  induction nodes with
  | nil => intro g h; exact h
  | cons n ns ih =>
    intro g h
    rw [List.foldl_cons]
    apply ih
    unfold addNodeEdges
    generalize uniqueTargets n = ts
    induction ts generalizing g with
    | nil => exact h
    | cons u ts iht =>
      rw [List.foldl_cons]
      apply iht
      show recGet (match recGet g.revAdj u with
        | some l => recSet g.revAdj u (l ++ [n.id])
        | none => g.revAdj) t = none
      cases hget : recGet g.revAdj u with
      | none => simp only [hget]; exact h
      | some lst =>
        simp only [hget]
        by_cases ht : t = u
        · subst ht
          rw [h] at hget
          cases hget
        · rw [recGet_recSet_ne _ _ _ _ ht]
          exact h

/-- An id that is not a node id has no reverse-adjacency entry. -/
theorem buildGraph_revAdj_none_s (nodes : List ScriptNode) (t : Id)
    (h : t ∉ nodes.map ScriptNode.id) :
    recGet (buildGraph nodes).revAdj t = none := by
  unfold buildGraph
  apply addNodeEdges_fold_revAdj_none
  unfold initGraph
  exact initGraph_revAdj_none_s t nodes _ (by rfl) h

/-- Each seed entry carries layer 0. -/
theorem seeds_snd_zero_s (nodes : List ScriptNode) (g : Graph) :
    ∀ e ∈ seeds nodes g, e.2 = 0 := by
  intro e he
  simp only [seeds] at he
  by_cases hs :
      ((nodes.filter (fun n => n.type = NodeType.START)).map (fun n => (n.id, (0 : Nat)))
        ++ (nodes.filter
            (fun n => recGet g.inDegree n.id = some 0 ∧ n.type ≠ NodeType.START)).map
              (fun n => (n.id, (0 : Nat)))) = []
  · rw [if_pos hs] at he
    cases nodes with
    | nil => simp at he
    | cons n ns =>
      rw [List.mem_singleton] at he
      rw [he]
  · rw [if_neg hs] at he
    rw [List.mem_append] at he
    rcases he with he | he <;>
      · obtain ⟨n, _, rfl⟩ := List.mem_map.mp he
        rfl

end GraphView

/-! ### Bucket-list access lemmas -/

theorem getD_nil {α : Type} (j : Nat) (d : α) : ([] : List α).getD j d = d := by
  cases j <;> rfl

theorem getD_cons_zero {α : Type} (x : α) (xs : List α) (d : α) :
    (x :: xs).getD 0 d = x := rfl

theorem getD_cons_succ {α : Type} (x : α) (xs : List α) (j : Nat) (d : α) :
    (x :: xs).getD (j + 1) d = xs.getD j d := rfl

theorem getD_set_ne {α : Type} :
    ∀ (l : List α) (i j : Nat) (a d : α), j ≠ i → (l.set i a).getD j d = l.getD j d := by
  intro l
  induction l with
  | nil => intro i j a d _; rfl
  | cons x xs ih =>
    intro i j a d h
    cases i with
    | zero =>
      cases j with
      | zero => exact absurd rfl h
      | succ j' => rfl
    | succ i' =>
      cases j with
      | zero => rfl
      | succ j' =>
        show (xs.set i' a).getD j' d = xs.getD j' d
        exact ih i' j' a d (fun hh => h (by rw [hh]))

theorem getD_set_self {α : Type} :
    ∀ (l : List α) (i : Nat) (a d : α),
      (l.set i a).getD i d = if i < l.length then a else d := by
  intro l
  induction l with
  | nil => intro i a d; cases i <;> simp [getD_nil]
  | cons x xs ih =>
    intro i a d
    cases i with
    | zero => simp
    | succ i' =>
      show (xs.set i' a).getD i' d = _
      rw [ih i' a d]
      simp only [List.length_cons]
      by_cases hi : i' < xs.length
      · rw [if_pos hi, if_pos (by omega)]
      · rw [if_neg hi, if_neg (by omega)]

theorem getD_range_map {α : Type} (f : Nat → α) (d : α) :
    ∀ (n j : Nat), ((List.range n).map f).getD j d = if j < n then f j else d := by
  intro n
  induction n with
  | zero => intro j; simp [List.range_zero, getD_nil]
  | succ n ih =>
    intro j
    rw [List.range_succ, List.map_append]
    by_cases hj : j < n
    · have hlen : j < ((List.range n).map f).length := by simpa using hj
      rw [List.getD_append _ _ _ _ hlen, ih j, if_pos hj, if_pos (by omega)]
    · have hlen : ((List.range n).map f).length ≤ j := by simpa using (by omega : n ≤ j)
      rw [List.getD_append_right _ _ _ _ hlen]
      simp only [List.length_map, List.length_range]
      by_cases hjn : j = n
      · subst hjn
        simp
      · have : j - n ≥ 1 := by omega
        rw [if_neg (by omega)]
        cases hd : j - n with
        | zero => omega
        | succ k => simp [getD_cons_succ, getD_nil]

/-- Setting each listed index to a permutation of its current content (the
in-place `layers[l].sort(...)` of the crossing pass) leaves every bucket a
permutation of the original. -/
theorem sortFold_perm (key : List (List Id) → Nat → Id → Q) :
    ∀ (ls : List Nat) (bs : List (List Id)) (j : Nat),
      ((ls.foldl (fun bs l => bs.set l (sortByKey (key bs l) (bs.getD l []))) bs).getD j []).Perm
        (bs.getD j []) := by
  intro ls
  induction ls with
  | nil => intro bs j; exact List.Perm.refl _
  | cons l ls ih =>
    intro bs j
    rw [List.foldl_cons]
    refine (ih _ j).trans ?_
    by_cases hj : j = l
    · subst hj
      rw [getD_set_self]
      by_cases hlen : j < bs.length
      · rw [if_pos hlen]
        exact sortByKey_perm _ _
      · rw [if_neg hlen]
        have : bs.getD j [] = [] := by
          have hge : bs.length ≤ j := by omega
          clear ih hlen
          induction bs generalizing j with
          | nil => exact getD_nil j []
          | cons b bs ihb =>
            cases j with
            | zero => simp at hge
            | succ j' =>
              rw [getD_cons_succ]
              exact ihb j' (by simpa using hge)
        rw [this]
    · rw [getD_set_ne _ _ _ _ _ hj]

/-! ### Agreement machinery for the coordinate stage

The coordinate walk only rewrites nodes of the bucket being processed; these
lemmas track which entries can change (`AgreeExcept`), so that parent
positions read by `idealCenterY` — always in strictly earlier layers — can be
related to the final output. -/

theorem agree_refl {α : Type} (nid : α → Id) (S : Id → Prop) (l : List α) :
    List.Forall₂ (AgreeExcept nid S) l l := by
  induction l with
  | nil => exact List.Forall₂.nil
  | cons a l ih => exact List.Forall₂.cons ⟨rfl, fun _ => rfl⟩ ih

theorem agree_trans {α : Type} (nid : α → Id) (S : Id → Prop) :
    ∀ {l₁ l₂ l₃ : List α}, List.Forall₂ (AgreeExcept nid S) l₁ l₂ →
      List.Forall₂ (AgreeExcept nid S) l₂ l₃ →
      List.Forall₂ (AgreeExcept nid S) l₁ l₃ := by
  intro l₁ l₂ l₃ h12 h23
  induction h12 generalizing l₃ with
  | nil => cases h23; exact List.Forall₂.nil
  | cons hab h12 ih =>
    cases h23 with
    | cons hbc h23 =>
      refine List.Forall₂.cons ⟨hab.1.trans hbc.1, fun hS => ?_⟩ (ih h23)
      rw [hab.2 hS]
      exact hbc.2 (by rw [← hab.1]; exact hS)

theorem agree_mono {α : Type} (nid : α → Id) (S S' : Id → Prop)
    (hSS : ∀ i, S i → S' i) :
    ∀ {l₁ l₂ : List α}, List.Forall₂ (AgreeExcept nid S) l₁ l₂ →
      List.Forall₂ (AgreeExcept nid S') l₁ l₂ := by
  intro l₁ l₂ h
  induction h with
  | nil => exact List.Forall₂.nil
  | cons hab h ih =>
    exact List.Forall₂.cons ⟨hab.1, fun hS => hab.2 (fun hs => hS (hSS _ hs))⟩ ih

theorem agree_replaceFirst {α : Type} (nid : α → Id) (S : Id → Prop) (j : Id)
    (b : α) (hb : nid b = j) (hS : S j) :
    ∀ (l : List α), List.Forall₂ (AgreeExcept nid S) l (replaceFirstById nid j b l) := by
  intro l
  induction l with
  | nil => exact List.Forall₂.nil
  | cons n rest ih =>
    by_cases hn : nid n = j
    · rw [replaceFirstById, if_pos hn]
      refine List.Forall₂.cons ⟨by rw [hn, hb], fun hns => absurd (hn ▸ hS) hns⟩
        (agree_refl nid S rest)
    · rw [replaceFirstById, if_neg hn]
      exact List.Forall₂.cons ⟨rfl, fun _ => rfl⟩ ih

theorem find?_agree {α : Type} (nid : α → Id) (S : Id → Prop) (j : Id) (hj : ¬ S j) :
    ∀ {l₁ l₂ : List α}, List.Forall₂ (AgreeExcept nid S) l₁ l₂ →
      l₁.find? (fun a => nid a = j) = l₂.find? (fun a => nid a = j) := by
  intro l₁ l₂ h
  induction h with
  | nil => rfl
  | cons hab h ih =>
    rename_i a b l₁ l₂
    by_cases ha : nid a = j
    · rw [List.find?_cons_of_pos _ (by simpa using ha),
        List.find?_cons_of_pos _ (by simpa using hab.1 ▸ ha)]
      rw [hab.2 (by rw [ha]; exact hj)]
    · rw [List.find?_cons_of_neg _ (by simpa using ha),
        List.find?_cons_of_neg _ (by simpa using hab.1 ▸ ha)]
      exact ih

theorem filter_contains_agree {α : Type} (nid : α → Id) (S : Id → Prop)
    (vp : List Id) (hvp : ∀ i ∈ vp, ¬ S i) :
    ∀ {l₁ l₂ : List α}, List.Forall₂ (AgreeExcept nid S) l₁ l₂ →
      l₁.filter (fun n => vp.contains (nid n)) = l₂.filter (fun n => vp.contains (nid n)) := by
  intro l₁ l₂ h
  induction h with
  | nil => rfl
  | cons hab h ih =>
    rename_i a b l₁ l₂
    by_cases hc : vp.contains (nid a)
    · have hcb : vp.contains (nid b) = true := by rw [← hab.1]; exact hc
      rw [List.filter_cons_of_pos (by simpa using hc),
        List.filter_cons_of_pos (by simpa using hcb)]
      rw [hab.2 (hvp (nid a) (by simpa using hc)), ih]
    · have hcb : ¬ vp.contains (nid b) = true := by rw [← hab.1]; exact hc
      rw [List.filter_cons_of_neg (by simpa using hc),
        List.filter_cons_of_neg (by simpa using hcb)]
      exact ih

/-- An element never matched keeps `find? = none` through an agreement. -/
theorem find?_id_none_agree {α : Type} (nid : α → Id) (S : Id → Prop) (j : Id) :
    ∀ {l₁ l₂ : List α}, List.Forall₂ (AgreeExcept nid S) l₁ l₂ →
      l₁.find? (fun a => nid a = j) = none →
      l₂.find? (fun a => nid a = j) = none := by
  intro l₁ l₂ h
  induction h with
  | nil => intro h; exact h
  | cons hab h ih =>
    rename_i a b l₁ l₂
    intro hn
    by_cases ha : nid a = j
    · rw [List.find?_cons_of_pos _ (by simpa using ha)] at hn
      cases hn
    · rw [List.find?_cons_of_neg _ (by simpa using ha)] at hn
      rw [List.find?_cons_of_neg _ (by simpa using hab.1 ▸ ha)]
      exact ih hn

theorem find?_replaceFirst_self {α : Type} (nid : α → Id) (j : Id) (b : α)
    (hb : nid b = j) :
    ∀ (l : List α) (node : α), l.find? (fun a => nid a = j) = some node →
      (replaceFirstById nid j b l).find? (fun a => nid a = j) = some b := by
  intro l
  induction l with
  | nil => intro node h; simp at h
  | cons n rest ih =>
    intro node h
    by_cases hn : nid n = j
    · rw [replaceFirstById, if_pos hn]
      rw [List.find?_cons_of_pos _ (by simpa using hb)]
    · rw [replaceFirstById, if_neg hn]
      rw [List.find?_cons_of_neg _ (by simpa using hn)] at h
      rw [List.find?_cons_of_neg _ (by simpa using hn)]
      exact ih node h

/-- Both crossing-minimization pipelines (initial buckets from `List.range`,
layer-0 sort, then the forward barycenter fold) leave bucket `j` a permutation
of `layerIds nl j` (and empty past `maxL`). -/
theorem bucketsPipeline_perm (key0 : Id → Q) (key : List (List Id) → Nat → Id → Q)
    (nl : List (Id × Nat)) (maxL : Nat) (j : Nat) :
    (((List.range' 1 maxL).foldl
        (fun bs l => bs.set l (sortByKey (key bs l) (bs.getD l [])))
        (((List.range (maxL + 1)).map (fun l => layerIds nl l)).set 0
          (sortByKey key0
            ((((List.range (maxL + 1)).map (fun l => layerIds nl l))).getD 0 [])))).getD j
      []).Perm (if j ≤ maxL then layerIds nl j else []) := by
  refine (sortFold_perm key _ _ j).trans ?_
  by_cases hj : j = 0
  · subst hj
    rw [getD_set_self]
    rw [if_pos (by simp)]
    refine (sortByKey_perm _ _).trans ?_
    rw [getD_range_map, if_pos (by omega), if_pos (by omega)]
  · rw [getD_set_ne _ _ _ _ _ hj, getD_range_map]
    by_cases hjm : j ≤ maxL
    · rw [if_pos (by omega), if_pos hjm]
    · rw [if_neg (by omega), if_neg hjm]

/-- Bucket contents are id-unique when the layer map has unique keys. -/
theorem layerIds_nodup (nl : List (Id × Nat)) (l : Nat)
    (h : (nl.map Prod.fst).Nodup) : (layerIds nl l).Nodup := by
  unfold layerIds
  have hsub : ((nl.filter (fun p => p.2 = l)).map Prod.fst).Sublist (nl.map Prod.fst) :=
    (List.filter_sublist _).map Prod.fst
  exact List.Nodup.sublist hsub h

/-! ### Outline coordinate-walk characterization -/

namespace OutlineView

theorem placeNode_none (revAdj : List (Id × List Id)) (nl : List (Id × Nat)) (l : Nat)
    (st : List OutlineNode × Q) (nid : Id)
    (h : st.1.find? (fun n => n.id = nid) = none) :
    placeNode revAdj nl l st nid = st := by
  unfold placeNode
  rw [h]

theorem placeNode_some (revAdj : List (Id × List Id)) (nl : List (Id × Nat)) (l : Nat)
    (st : List OutlineNode × Q) (nid : Id) (node : OutlineNode)
    (h : st.1.find? (fun n => n.id = nid) = some node) :
    placeNode revAdj nl l st nid =
      (replaceFirstById OutlineNode.id nid
        { node with position :=
            ⟨qI (100 + 350 * (l : Int)), finalYOf revAdj nl l st.1 nid st.2 node⟩ } st.1,
       Q.add (Q.add (finalYOf revAdj nl l st.1 nid st.2 node) node.height) (qI 50)) := by
  unfold placeNode
  rw [h]

theorem find?_id_of_some (lst : List OutlineNode) (nid : Id) (node : OutlineNode)
    (h : lst.find? (fun n => n.id = nid) = some node) : node.id = nid := by
  have := List.find?_some h
  simpa using this

theorem placeNode_agree (revAdj : List (Id × List Id)) (nl : List (Id × Nat)) (l : Nat)
    (S : Id → Prop) (st : List OutlineNode × Q) (nid : Id) (hS : S nid) :
    List.Forall₂ (AgreeExcept OutlineNode.id S) st.1 (placeNode revAdj nl l st nid).1 := by
  cases h : st.1.find? (fun n => n.id = nid) with
  | none =>
    rw [placeNode_none revAdj nl l st nid h]
    exact agree_refl _ _ _
  | some node =>
    rw [placeNode_some revAdj nl l st nid node h]
    exact agree_replaceFirst OutlineNode.id S nid
      { node with position :=
          ⟨qI (100 + 350 * (l : Int)), finalYOf revAdj nl l st.1 nid st.2 node⟩ }
      (find?_id_of_some st.1 nid node h) hS st.1

theorem placeFold_agree (revAdj : List (Id × List Id)) (nl : List (Id × Nat)) (l : Nat)
    (S : Id → Prop) :
    ∀ (B : List Id) (st : List OutlineNode × Q), (∀ i ∈ B, S i) →
      List.Forall₂ (AgreeExcept OutlineNode.id S) st.1
        ((B.foldl (placeNode revAdj nl l) st).1) := by
  intro B
  induction B with
  | nil => intro st _; exact agree_refl _ _ _
  | cons nid B ih =>
    intro st hB
    rw [List.foldl_cons]
    exact agree_trans OutlineNode.id S
      (placeNode_agree revAdj nl l S st nid (hB nid (List.mem_cons_self _ _)))
      (ih _ (fun i hi => hB i (List.mem_cons_of_mem _ hi)))

theorem mem_validParents (revAdj : List (Id × List Id)) (nl : List (Id × Nat)) (l : Nat)
    (nid pid : Id) (h : pid ∈ validParents revAdj nl l nid) :
    recGet nl pid = some (l - 1) ∧ l ≠ 0 := by
  unfold validParents at h
  by_cases hl : l = 0
  · rw [if_pos hl] at h
    simp at h
  · rw [if_neg hl] at h
    rw [List.mem_filter] at h
    exact ⟨by simpa using h.2, hl⟩

theorem idealCenterY_agree (revAdj : List (Id × List Id)) (nl : List (Id × Nat)) (l : Nat)
    (S : Id → Prop) (hS : ∀ pid, recGet nl pid = some (l - 1) → l ≠ 0 → ¬ S pid)
    (nid : Id) {acc₁ acc₂ : List OutlineNode}
    (h : List.Forall₂ (AgreeExcept OutlineNode.id S) acc₁ acc₂) :
    idealCenterY revAdj nl l acc₁ nid = idealCenterY revAdj nl l acc₂ nid := by
  have hf : acc₁.filter (fun n => (validParents revAdj nl l nid).contains n.id)
      = acc₂.filter (fun n => (validParents revAdj nl l nid).contains n.id) :=
    filter_contains_agree OutlineNode.id S (validParents revAdj nl l nid)
      (fun i hi => hS i (mem_validParents revAdj nl l nid i hi).1
        (mem_validParents revAdj nl l nid i hi).2) h
  unfold idealCenterY
  rw [hf]

theorem finalYOf_agree (revAdj : List (Id × List Id)) (nl : List (Id × Nat)) (l : Nat)
    (S : Id → Prop) (hS : ∀ pid, recGet nl pid = some (l - 1) → l ≠ 0 → ¬ S pid)
    (nid : Id) (cursor : Q) (node : OutlineNode) {acc₁ acc₂ : List OutlineNode}
    (h : List.Forall₂ (AgreeExcept OutlineNode.id S) acc₁ acc₂) :
    finalYOf revAdj nl l acc₁ nid cursor node = finalYOf revAdj nl l acc₂ nid cursor node := by
  unfold finalYOf
  rw [idealCenterY_agree revAdj nl l S hS nid h]

theorem centeredChain_agree (revAdj : List (Id × List Id)) (nl : List (Id × Nat)) (l : Nat)
    (S : Id → Prop) (hS : ∀ pid, recGet nl pid = some (l - 1) → l ≠ 0 → ¬ S pid)
    {out₁ out₂ : List OutlineNode}
    (h : List.Forall₂ (AgreeExcept OutlineNode.id S) out₁ out₂) :
    ∀ (seq : List OutlineNode) (cursor : Q),
      centeredChain revAdj nl l out₁ cursor seq → centeredChain revAdj nl l out₂ cursor seq := by
  intro seq
  induction seq with
  | nil => intro cursor _; trivial
  | cons n rest ih =>
    intro cursor hc
    obtain ⟨hy, hrest⟩ := hc
    exact ⟨by rw [hy]; exact finalYOf_agree revAdj nl l S hS n.id cursor n h, ih _ hrest⟩

/-- Per-layer master lemma: after folding one bucket, the placed sequence
satisfies the Coordinator recurrence (read against the layer's result list)
and every placed node sits in the layer's column. -/
theorem placeFold_centered (revAdj : List (Id × List Id)) (nl : List (Id × Nat)) (l : Nat) :
    ∀ (B : List Id) (st : List OutlineNode × Q),
      B.Nodup → (∀ i ∈ B, recGet nl i = some l) →
      centeredChain revAdj nl l ((B.foldl (placeNode revAdj nl l) st).1) st.2
        (placedSeqO ((B.foldl (placeNode revAdj nl l) st).1) B) ∧
      (∀ n ∈ placedSeqO ((B.foldl (placeNode revAdj nl l) st).1) B,
        n.position.x = qI (100 + 350 * (l : Int))) := by
  intro B
  induction B with
  | nil => intro st _ _; exact ⟨trivial, by intro n hn; simp [placedSeqO] at hn⟩
  | cons nid B ih =>
    intro st hnd hBl
    rw [List.nodup_cons] at hnd
    rw [List.foldl_cons]
    cases hfind : st.1.find? (fun n => n.id = nid) with
    | none =>
      rw [placeNode_none revAdj nl l st nid hfind]
      have hnone : ((B.foldl (placeNode revAdj nl l) st).1).find? (fun n => n.id = nid)
          = none :=
        find?_id_none_agree OutlineNode.id (fun _ => True) nid
          (placeFold_agree revAdj nl l (fun _ => True) B st (fun _ _ => trivial)) hfind
      have hseq : placedSeqO ((B.foldl (placeNode revAdj nl l) st).1) (nid :: B)
          = placedSeqO ((B.foldl (placeNode revAdj nl l) st).1) B := by
        unfold placedSeqO
        rw [List.filterMap_cons, hnone]
      rw [hseq]
      exact ih st hnd.2 (fun i hi => hBl i (List.mem_cons_of_mem _ hi))
    | some node =>
      rw [placeNode_some revAdj nl l st nid node hfind]
      set y := finalYOf revAdj nl l st.1 nid st.2 node with hy
      set placedN : OutlineNode :=
        { node with position := ⟨qI (100 + 350 * (l : Int)), y⟩ } with hplaced
      set st' : List OutlineNode × Q :=
        (replaceFirstById OutlineNode.id nid placedN st.1,
         Q.add (Q.add y node.height) (qI 50)) with hst'
      have hfind' : st'.1.find? (fun n => n.id = nid) = some placedN :=
        find?_replaceFirst_self OutlineNode.id nid placedN
          (find?_id_of_some st.1 nid node hfind) st.1 node hfind
      have hagree' : List.Forall₂ (AgreeExcept OutlineNode.id (fun i => i ∈ B)) st'.1
          ((B.foldl (placeNode revAdj nl l) st').1) :=
        placeFold_agree revAdj nl l (fun i => i ∈ B) B st' (fun _ hi => hi)
      have hfindL : ((B.foldl (placeNode revAdj nl l) st').1).find? (fun n => n.id = nid)
          = some placedN := by
        rw [← find?_agree OutlineNode.id (fun i => i ∈ B) nid hnd.1 hagree']
        exact hfind'
      have hseq : placedSeqO ((B.foldl (placeNode revAdj nl l) st').1) (nid :: B)
          = placedN :: placedSeqO ((B.foldl (placeNode revAdj nl l) st').1) B := by
        unfold placedSeqO
        rw [List.filterMap_cons, hfindL]
      rw [hseq]
      obtain ⟨ihc, ihx⟩ := ih st' hnd.2 (fun i hi => hBl i (List.mem_cons_of_mem _ hi))
      have hSdisj : ∀ pid, recGet nl pid = some (l - 1) → l ≠ 0 → ¬ (pid ∈ nid :: B) := by
        intro pid hpid hl0 hmem
        have := hBl pid hmem
        rw [hpid] at this
        have hll : l - 1 = l := Option.some.inj this
        omega
      refine ⟨⟨?_, ?_⟩, ?_⟩
      · show placedN.position.y = finalYOf revAdj nl l
          ((B.foldl (placeNode revAdj nl l) st').1) placedN.id st.2 placedN
        have hid : placedN.id = nid := find?_id_of_some st.1 nid node hfind
        have hagree : List.Forall₂ (AgreeExcept OutlineNode.id (fun i => i ∈ nid :: B))
            st.1 ((B.foldl (placeNode revAdj nl l) st').1) := by
          refine agree_trans OutlineNode.id _ ?_
            (agree_mono OutlineNode.id (fun i => i ∈ B) _
              (fun i hi => List.mem_cons_of_mem _ hi) hagree')
          exact agree_replaceFirst OutlineNode.id _ nid placedN
            (find?_id_of_some st.1 nid node hfind) (List.mem_cons_self _ _) st.1
        have heq : finalYOf revAdj nl l st.1 nid st.2 node
            = finalYOf revAdj nl l ((B.foldl (placeNode revAdj nl l) st').1) nid st.2 node :=
          finalYOf_agree revAdj nl l _ hSdisj nid st.2 node hagree
        show y = _
        rw [hy, heq, hid]
        rfl
      · show centeredChain revAdj nl l ((B.foldl (placeNode revAdj nl l) st').1)
          (Q.add (Q.add placedN.position.y placedN.height) (qI 50))
          (placedSeqO ((B.foldl (placeNode revAdj nl l) st').1) B)
        exact ihc
      · intro n hn
        rw [List.mem_cons] at hn
        rcases hn with hn | hn
        · rw [hn]
        · exact ihx n hn

theorem nodeLayer_nodup_keys (nodes : List OutlineNode) (edges : List OutlineEdge) :
    ((nodeLayer nodes edges).map Prod.fst).Nodup :=
  withFallback_nodup_keys nodes OutlineNode.id _
    (bfsRun_nodup_keys (buildGraph nodes edges).adj _ [] _ (by simp))

theorem sortedBuckets_perm (nodes : List OutlineNode) (edges : List OutlineEdge) (j : Nat) :
    ((sortedBuckets nodes edges).getD j []).Perm
      (if j ≤ maxLayer (nodeLayer nodes edges) then layerIds (nodeLayer nodes edges) j
       else []) :=
  bucketsPipeline_perm (yOf nodes)
    (fun bs l => baryScore (buildGraph nodes edges).revAdj (bs.getD (l - 1) []))
    (nodeLayer nodes edges) (maxLayer (nodeLayer nodes edges)) j

theorem mem_bucket_layer (nodes : List OutlineNode) (edges : List OutlineEdge)
    (l : Nat) (i : Id) (h : i ∈ (sortedBuckets nodes edges).getD l []) :
    recGet (nodeLayer nodes edges) i = some l := by
  have hmem := (sortedBuckets_perm nodes edges l).mem_iff.mp h
  by_cases hml : l ≤ maxLayer (nodeLayer nodes edges)
  · rw [if_pos hml] at hmem
    rw [mem_layerIds_iff] at hmem
    exact (recGet_eq_some_iff_mem _ _ _ (nodeLayer_nodup_keys nodes edges)).mpr hmem
  · rw [if_neg hml] at hmem
    simp at hmem

theorem bucket_nodup (nodes : List OutlineNode) (edges : List OutlineEdge) (l : Nat) :
    ((sortedBuckets nodes edges).getD l []).Nodup := by
  refine ((sortedBuckets_perm nodes edges l).symm).nodup ?_
  by_cases hml : l ≤ maxLayer (nodeLayer nodes edges)
  · rw [if_pos hml]
    exact layerIds_nodup _ l (nodeLayer_nodup_keys nodes edges)
  · rw [if_neg hml]
    exact List.nodup_nil

theorem bucket_empty_of_gt (nodes : List OutlineNode) (edges : List OutlineEdge) (l : Nat)
    (h : maxLayer (nodeLayer nodes edges) < l) :
    (sortedBuckets nodes edges).getD l [] = [] := by
  have hperm := sortedBuckets_perm nodes edges l
  rw [if_neg (by omega)] at hperm
  exact List.Perm.eq_nil hperm

theorem layersFold_agree (revAdj : List (Id × List Id)) (nl : List (Id × Nat))
    (bs : List (List Id)) (S : Id → Prop) :
    ∀ (ls : List Nat) (acc : List OutlineNode),
      (∀ l ∈ ls, ∀ i ∈ bs.getD l [], S i) →
      List.Forall₂ (AgreeExcept OutlineNode.id S) acc
        (ls.foldl (fun acc l => placeLayer revAdj nl l acc (bs.getD l [])) acc) := by
  intro ls
  induction ls with
  | nil => intro acc _; exact agree_refl _ _ _
  | cons l ls ih =>
    intro acc hS
    rw [List.foldl_cons]
    refine agree_trans OutlineNode.id S ?_
      (ih _ (fun l' hl' => hS l' (List.mem_cons_of_mem _ hl')))
    exact placeFold_agree revAdj nl l S (bs.getD l []) (acc, qI 100)
      (hS l (List.mem_cons_self _ _))

/-- Lifting the per-layer master lemma across the ascending fold over all
layers: in the final node list, each layer's placed sequence still satisfies
the Coordinator recurrence from cursor 100, in that layer's column. -/
theorem layersFold_centered (revAdj : List (Id × List Id)) (nl : List (Id × Nat))
    (bs : List (List Id)) :
    ∀ (ls : List Nat) (acc : List OutlineNode),
      List.Pairwise (· < ·) ls →
      (∀ l ∈ ls, ∀ i ∈ bs.getD l [], recGet nl i = some l) →
      (∀ l ∈ ls, (bs.getD l []).Nodup) →
      ∀ l ∈ ls,
        centeredChain revAdj nl l
          (ls.foldl (fun acc l => placeLayer revAdj nl l acc (bs.getD l [])) acc) (qI 100)
          (placedSeqO (ls.foldl (fun acc l => placeLayer revAdj nl l acc (bs.getD l [])) acc)
            (bs.getD l [])) ∧
        (∀ n ∈ placedSeqO
            (ls.foldl (fun acc l => placeLayer revAdj nl l acc (bs.getD l [])) acc)
            (bs.getD l []),
          n.position.x = qI (100 + 350 * (l : Int))) := by
  intro ls
  induction ls with
  | nil => intro acc _ _ _ l hl; simp at hl
  | cons l0 ls ih =>
    intro acc hpw hlay hnd l hl
    rw [List.pairwise_cons] at hpw
    rw [List.foldl_cons]
    rw [List.mem_cons] at hl
    rcases hl with hl | hl
    · subst hl
      have hnd0 := hnd l (List.mem_cons_self _ _)
      have hlay0 := hlay l (List.mem_cons_self _ _)
      have hmaster := placeFold_centered revAdj nl l (bs.getD l []) (acc, qI 100) hnd0 hlay0
      have hfold : placeLayer revAdj nl l acc (bs.getD l [])
          = ((bs.getD l []).foldl (placeNode revAdj nl l) (acc, qI 100)).1 := rfl
      have hagree : List.Forall₂
          (AgreeExcept OutlineNode.id (fun i => ∃ l' ∈ ls, i ∈ bs.getD l' []))
          (placeLayer revAdj nl l acc (bs.getD l []))
          (ls.foldl (fun acc l => placeLayer revAdj nl l acc (bs.getD l []))
            (placeLayer revAdj nl l acc (bs.getD l []))) :=
        layersFold_agree revAdj nl bs _ ls _ (fun l' hl' i hi => ⟨l', hl', hi⟩)
      have hnotS : ∀ i ∈ bs.getD l [], ¬ (∃ l' ∈ ls, i ∈ bs.getD l' []) := by
        intro i hi hSi
        obtain ⟨l', hl', hi'⟩ := hSi
        have h1 := hlay l (List.mem_cons_self _ _) i hi
        have h2 := hlay l' (List.mem_cons_of_mem _ hl') i hi'
        rw [h1] at h2
        have := hpw.1 l' hl'
        have := Option.some.inj h2
        omega
      have hseqeq : placedSeqO
          (ls.foldl (fun acc l => placeLayer revAdj nl l acc (bs.getD l []))
            (placeLayer revAdj nl l acc (bs.getD l []))) (bs.getD l [])
          = placedSeqO (placeLayer revAdj nl l acc (bs.getD l [])) (bs.getD l []) := by
        unfold placedSeqO
        refine List.filterMap_congr ?_
        intro i hi
        exact (find?_agree OutlineNode.id _ i (hnotS i hi) hagree).symm
      have hSdisj : ∀ pid, recGet nl pid = some (l - 1) → l ≠ 0 →
          ¬ (∃ l' ∈ ls, pid ∈ bs.getD l' []) := by
        intro pid hpid hl0 hSi
        obtain ⟨l', hl', hi'⟩ := hSi
        have h2 := hlay l' (List.mem_cons_of_mem _ hl') pid hi'
        rw [hpid] at h2
        have := hpw.1 l' hl'
        have := Option.some.inj h2
        omega
      refine ⟨?_, ?_⟩
      · rw [hseqeq]
        refine centeredChain_agree revAdj nl l _ hSdisj hagree _ (qI 100) ?_
        rw [hfold]
        exact hmaster.1
      · intro n hn
        rw [hseqeq, hfold] at hn
        exact hmaster.2 n hn
    · exact ih (placeLayer revAdj nl l0 acc (bs.getD l0 [])) hpw.2
        (fun l' hl' => hlay l' (List.mem_cons_of_mem _ hl'))
        (fun l' hl' => hnd l' (List.mem_cons_of_mem _ hl')) l hl

/-- Pipeline-level characterization: in the final output of the outline
layout, every layer's placed sequence follows the Coordinator recurrence
(cursor 100, centering against final positions) and sits in column
`100 + 350·l`. -/
theorem laidNodes_centered (nodes : List OutlineNode) (edges : List OutlineEdge) (l : Nat) :
    centeredChain (buildGraph nodes edges).revAdj (nodeLayer nodes edges) l
      (laidNodes nodes edges) (qI 100)
      (placedSeqO (laidNodes nodes edges) ((sortedBuckets nodes edges).getD l [])) ∧
    (∀ n ∈ placedSeqO (laidNodes nodes edges) ((sortedBuckets nodes edges).getD l []),
      n.position.x = qI (100 + 350 * (l : Int))) := by
  by_cases hml : l ≤ maxLayer (nodeLayer nodes edges)
  · have hfold : laidNodes nodes edges
        = (List.range (maxLayer (nodeLayer nodes edges) + 1)).foldl
            (fun acc l =>
              placeLayer (buildGraph nodes edges).revAdj (nodeLayer nodes edges) l acc
                ((sortedBuckets nodes edges).getD l [])) nodes := rfl
    have hmem : l ∈ List.range (maxLayer (nodeLayer nodes edges) + 1) :=
      List.mem_range.mpr (by omega)
    have h := layersFold_centered (buildGraph nodes edges).revAdj (nodeLayer nodes edges)
      (sortedBuckets nodes edges) (List.range (maxLayer (nodeLayer nodes edges) + 1)) nodes
      (List.pairwise_lt_range _)
      (fun l' _ i hi => mem_bucket_layer nodes edges l' i hi)
      (fun l' _ => bucket_nodup nodes edges l') l hmem
    rw [hfold]
    exact h
  · rw [bucket_empty_of_gt nodes edges l (by omega)]
    refine ⟨trivial, ?_⟩
    intro n hn
    simp [placedSeqO] at hn

/-- The cursor is a lower bound on the final y the walk assigns. -/
theorem finalYOf_ge_cursor (revAdj : List (Id × List Id)) (nl : List (Id × Nat)) (l : Nat)
    (acc : List OutlineNode) (nid : Id) (cursor : Q) (node : OutlineNode) :
    Q.le cursor (finalYOf revAdj nl l acc nid cursor node) := by
  unfold finalYOf
  by_cases h : Q.beqv (idealCenterY revAdj nl l acc nid) (qI (-1))
  · rw [if_pos h]
    exact Q.le_refl cursor
  · rw [if_neg h]
    exact Q.le_max_left _ _

/-- The Coordinator recurrence implies the no-overlap gap property. -/
theorem centeredChain_gap (revAdj : List (Id × List Id)) (nl : List (Id × Nat)) (l : Nat)
    (out : List OutlineNode) :
    ∀ (seq : List OutlineNode) (cursor : Q),
      centeredChain revAdj nl l out cursor seq →
      (∀ b ∈ seq.head?, Q.le cursor b.position.y) ∧
      List.Chain'
        (fun a b => Q.le (Q.add (Q.add a.position.y a.height) (qI 50)) b.position.y) seq := by
  intro seq
  induction seq with
  | nil =>
    intro cursor _
    exact ⟨by intro b hb; simp at hb, List.chain'_nil⟩
  | cons n rest ih =>
    intro cursor hc
    obtain ⟨hy, hrest⟩ := hc
    obtain ⟨ihead, ichain⟩ := ih _ hrest
    constructor
    · intro b hb
      rw [List.head?_cons, Option.mem_def, Option.some.injEq] at hb
      subst hb
      rw [hy]
      exact finalYOf_ge_cursor revAdj nl l out n.id cursor n
    · rw [List.chain'_cons']
      exact ⟨fun b hb => ihead b hb, ichain⟩

end OutlineView

/-! ### Script coordinate-walk characterization -/

namespace GraphView

theorem placeNode_none_s (vo : ViewOptions) (l : Nat) (st : List ScriptNode × Q) (nid : Id)
    (h : st.1.find? (fun n => n.id = nid) = none) :
    placeNode vo l st nid = st := by
  unfold placeNode
  rw [h]

theorem placeNode_some_s (vo : ViewOptions) (l : Nat) (st : List ScriptNode × Q) (nid : Id)
    (node : ScriptNode) (h : st.1.find? (fun n => n.id = nid) = some node) :
    placeNode vo l st nid =
      (replaceFirstById ScriptNode.id nid
        { node with position := ⟨qI (100 + 420 * (l : Int)), st.2⟩ } st.1,
       Q.add (Q.add st.2 (calculateNodeHeight vo node)) (qI 60)) := by
  unfold placeNode
  rw [h]

theorem find?_id_of_some_s (lst : List ScriptNode) (nid : Id) (node : ScriptNode)
    (h : lst.find? (fun n => n.id = nid) = some node) : node.id = nid := by
  have := List.find?_some h
  simpa using this

theorem placeNode_agree_s (vo : ViewOptions) (l : Nat) (S : Id → Prop)
    (st : List ScriptNode × Q) (nid : Id) (hS : S nid) :
    List.Forall₂ (AgreeExcept ScriptNode.id S) st.1 (placeNode vo l st nid).1 := by
  cases h : st.1.find? (fun n => n.id = nid) with
  | none =>
    rw [placeNode_none_s vo l st nid h]
    exact agree_refl _ _ _
  | some node =>
    rw [placeNode_some_s vo l st nid node h]
    exact agree_replaceFirst ScriptNode.id S nid
      { node with position := ⟨qI (100 + 420 * (l : Int)), st.2⟩ }
      (find?_id_of_some_s st.1 nid node h) hS st.1

theorem placeFold_agree_s (vo : ViewOptions) (l : Nat) (S : Id → Prop) :
    ∀ (B : List Id) (st : List ScriptNode × Q), (∀ i ∈ B, S i) →
      List.Forall₂ (AgreeExcept ScriptNode.id S) st.1 ((B.foldl (placeNode vo l) st).1) := by
  intro B
  induction B with
  | nil => intro st _; exact agree_refl _ _ _
  | cons nid B ih =>
    intro st hB
    rw [List.foldl_cons]
    exact agree_trans ScriptNode.id S
      (placeNode_agree_s vo l S st nid (hB nid (List.mem_cons_self _ _)))
      (ih _ (fun i hi => hB i (List.mem_cons_of_mem _ hi)))

/-- Per-layer master lemma of the script walk: plain stacking from the
cursor, in the layer's column (no parent centering). -/
theorem placeFold_stacked (vo : ViewOptions) (l : Nat) :
    ∀ (B : List Id) (st : List ScriptNode × Q),
      B.Nodup →
      stackedChain vo st.2 (placedSeqS ((B.foldl (placeNode vo l) st).1) B) ∧
      (∀ n ∈ placedSeqS ((B.foldl (placeNode vo l) st).1) B,
        n.position.x = qI (100 + 420 * (l : Int))) := by
  intro B
  induction B with
  | nil => intro st _; exact ⟨trivial, by intro n hn; simp [placedSeqS] at hn⟩
  | cons nid B ih =>
    intro st hnd
    rw [List.nodup_cons] at hnd
    rw [List.foldl_cons]
    cases hfind : st.1.find? (fun n => n.id = nid) with
    | none =>
      rw [placeNode_none_s vo l st nid hfind]
      have hnone : ((B.foldl (placeNode vo l) st).1).find? (fun n => n.id = nid) = none :=
        find?_id_none_agree ScriptNode.id (fun _ => True) nid
          (placeFold_agree_s vo l (fun _ => True) B st (fun _ _ => trivial)) hfind
      have hseq : placedSeqS ((B.foldl (placeNode vo l) st).1) (nid :: B)
          = placedSeqS ((B.foldl (placeNode vo l) st).1) B := by
        unfold placedSeqS
        rw [List.filterMap_cons, hnone]
      rw [hseq]
      exact ih st hnd.2
    | some node =>
      rw [placeNode_some_s vo l st nid node hfind]
      set placedN : ScriptNode :=
        { node with position := ⟨qI (100 + 420 * (l : Int)), st.2⟩ } with hplaced
      set st' : List ScriptNode × Q :=
        (replaceFirstById ScriptNode.id nid placedN st.1,
         Q.add (Q.add st.2 (calculateNodeHeight vo node)) (qI 60)) with hst'
      have hfind' : st'.1.find? (fun n => n.id = nid) = some placedN :=
        find?_replaceFirst_self ScriptNode.id nid placedN
          (find?_id_of_some_s st.1 nid node hfind) st.1 node hfind
      have hagree' : List.Forall₂ (AgreeExcept ScriptNode.id (fun i => i ∈ B)) st'.1
          ((B.foldl (placeNode vo l) st').1) :=
        placeFold_agree_s vo l (fun i => i ∈ B) B st' (fun _ hi => hi)
      have hfindL : ((B.foldl (placeNode vo l) st').1).find? (fun n => n.id = nid)
          = some placedN := by
        rw [← find?_agree ScriptNode.id (fun i => i ∈ B) nid hnd.1 hagree']
        exact hfind'
      have hseq : placedSeqS ((B.foldl (placeNode vo l) st').1) (nid :: B)
          = placedN :: placedSeqS ((B.foldl (placeNode vo l) st').1) B := by
        unfold placedSeqS
        rw [List.filterMap_cons, hfindL]
      rw [hseq]
      obtain ⟨ihc, ihx⟩ := ih st' hnd.2
      refine ⟨⟨rfl, ?_⟩, ?_⟩
      · exact ihc
      · intro n hn
        rw [List.mem_cons] at hn
        rcases hn with hn | hn
        · rw [hn]
        · exact ihx n hn

theorem layersFold_agree_s (vo : ViewOptions) (bs : List (List Id)) (S : Id → Prop) :
    ∀ (ls : List Nat) (acc : List ScriptNode),
      (∀ l ∈ ls, ∀ i ∈ bs.getD l [], S i) →
      List.Forall₂ (AgreeExcept ScriptNode.id S) acc
        (ls.foldl (fun acc l => placeLayer vo l acc (bs.getD l [])) acc) := by
  intro ls
  induction ls with
  | nil => intro acc _; exact agree_refl _ _ _
  | cons l ls ih =>
    intro acc hS
    rw [List.foldl_cons]
    refine agree_trans ScriptNode.id S ?_
      (ih _ (fun l' hl' => hS l' (List.mem_cons_of_mem _ hl')))
    exact placeFold_agree_s vo l S (bs.getD l []) (acc, qI 100)
      (hS l (List.mem_cons_self _ _))

/-- Lifting the stacking lemma across the fold over all layers. -/
theorem layersFold_stacked (vo : ViewOptions) (nl : List (Id × Nat)) (bs : List (List Id)) :
    ∀ (ls : List Nat) (acc : List ScriptNode),
      List.Pairwise (· < ·) ls →
      (∀ l ∈ ls, ∀ i ∈ bs.getD l [], recGet nl i = some l) →
      (∀ l ∈ ls, (bs.getD l []).Nodup) →
      ∀ l ∈ ls,
        stackedChain vo (qI 100)
          (placedSeqS (ls.foldl (fun acc l => placeLayer vo l acc (bs.getD l [])) acc)
            (bs.getD l [])) ∧
        (∀ n ∈ placedSeqS (ls.foldl (fun acc l => placeLayer vo l acc (bs.getD l [])) acc)
            (bs.getD l []),
          n.position.x = qI (100 + 420 * (l : Int))) := by
  intro ls
  induction ls with
  | nil => intro acc _ _ _ l hl; simp at hl
  | cons l0 ls ih =>
    intro acc hpw hlay hnd l hl
    rw [List.pairwise_cons] at hpw
    rw [List.foldl_cons]
    rw [List.mem_cons] at hl
    rcases hl with hl | hl
    · subst hl
      have hnd0 := hnd l (List.mem_cons_self _ _)
      have hmaster := placeFold_stacked vo l (bs.getD l []) (acc, qI 100) hnd0
      have hfold : placeLayer vo l acc (bs.getD l [])
          = ((bs.getD l []).foldl (placeNode vo l) (acc, qI 100)).1 := rfl
      have hagree : List.Forall₂
          (AgreeExcept ScriptNode.id (fun i => ∃ l' ∈ ls, i ∈ bs.getD l' []))
          (placeLayer vo l acc (bs.getD l []))
          (ls.foldl (fun acc l => placeLayer vo l acc (bs.getD l []))
            (placeLayer vo l acc (bs.getD l []))) :=
        layersFold_agree_s vo bs _ ls _ (fun l' hl' i hi => ⟨l', hl', hi⟩)
      have hnotS : ∀ i ∈ bs.getD l [], ¬ (∃ l' ∈ ls, i ∈ bs.getD l' []) := by
        intro i hi hSi
        obtain ⟨l', hl', hi'⟩ := hSi
        have h1 := hlay l (List.mem_cons_self _ _) i hi
        have h2 := hlay l' (List.mem_cons_of_mem _ hl') i hi'
        rw [h1] at h2
        have := hpw.1 l' hl'
        have := Option.some.inj h2
        omega
      have hseqeq : placedSeqS
          (ls.foldl (fun acc l => placeLayer vo l acc (bs.getD l []))
            (placeLayer vo l acc (bs.getD l []))) (bs.getD l [])
          = placedSeqS (placeLayer vo l acc (bs.getD l [])) (bs.getD l []) := by
        unfold placedSeqS
        refine List.filterMap_congr ?_
        intro i hi
        exact (find?_agree ScriptNode.id _ i (hnotS i hi) hagree).symm
      refine ⟨?_, ?_⟩
      · rw [hseqeq, hfold]
        exact hmaster.1
      · intro n hn
        rw [hseqeq, hfold] at hn
        exact hmaster.2 n hn
    · exact ih (placeLayer vo l0 acc (bs.getD l0 [])) hpw.2
        (fun l' hl' => hlay l' (List.mem_cons_of_mem _ hl'))
        (fun l' hl' => hnd l' (List.mem_cons_of_mem _ hl')) l hl

theorem nodeLayer_nodup_keys_s (nodes : List ScriptNode) :
    ((nodeLayer nodes).map Prod.fst).Nodup :=
  withFallback_nodup_keys nodes ScriptNode.id _
    (bfsRun_nodup_keys (buildGraph nodes).adj _ [] _ (by simp))

theorem sortedBuckets_perm_s (nodes : List ScriptNode) (j : Nat) :
    ((sortedBuckets nodes).getD j []).Perm
      (if j ≤ maxLayer (nodeLayer nodes) then layerIds (nodeLayer nodes) j else []) :=
  bucketsPipeline_perm (startKey nodes)
    (fun bs l => baryScore (buildGraph nodes).revAdj (bs.getD (l - 1) []) (bs.getD l []))
    (nodeLayer nodes) (maxLayer (nodeLayer nodes)) j

theorem mem_bucket_layer_s (nodes : List ScriptNode) (l : Nat) (i : Id)
    (h : i ∈ (sortedBuckets nodes).getD l []) :
    recGet (nodeLayer nodes) i = some l := by
  have hmem := (sortedBuckets_perm_s nodes l).mem_iff.mp h
  by_cases hml : l ≤ maxLayer (nodeLayer nodes)
  · rw [if_pos hml] at hmem
    rw [mem_layerIds_iff] at hmem
    exact (recGet_eq_some_iff_mem _ _ _ (nodeLayer_nodup_keys_s nodes)).mpr hmem
  · rw [if_neg hml] at hmem
    simp at hmem

theorem bucket_nodup_s (nodes : List ScriptNode) (l : Nat) :
    ((sortedBuckets nodes).getD l []).Nodup := by
  refine ((sortedBuckets_perm_s nodes l).symm).nodup ?_
  by_cases hml : l ≤ maxLayer (nodeLayer nodes)
  · rw [if_pos hml]
    exact layerIds_nodup _ l (nodeLayer_nodup_keys_s nodes)
  · rw [if_neg hml]
    exact List.nodup_nil

theorem bucket_empty_of_gt_s (nodes : List ScriptNode) (l : Nat)
    (h : maxLayer (nodeLayer nodes) < l) :
    (sortedBuckets nodes).getD l [] = [] := by
  have hperm := sortedBuckets_perm_s nodes l
  rw [if_neg (by omega)] at hperm
  exact List.Perm.eq_nil hperm

/-- Pipeline-level characterization of the script layout: every layer's placed
sequence is plain stacking from cursor 100 in column `100 + 420·l`. -/
theorem laidNodes_stacked (vo : ViewOptions) (nodes : List ScriptNode) (l : Nat) :
    stackedChain vo (qI 100)
      (placedSeqS (laidNodes vo nodes) ((sortedBuckets nodes).getD l [])) ∧
    (∀ n ∈ placedSeqS (laidNodes vo nodes) ((sortedBuckets nodes).getD l []),
      n.position.x = qI (100 + 420 * (l : Int))) := by
  by_cases hml : l ≤ maxLayer (nodeLayer nodes)
  · have hfold : laidNodes vo nodes
        = (List.range (maxLayer (nodeLayer nodes) + 1)).foldl
            (fun acc l => placeLayer vo l acc ((sortedBuckets nodes).getD l [])) nodes := rfl
    have hmem : l ∈ List.range (maxLayer (nodeLayer nodes) + 1) :=
      List.mem_range.mpr (by omega)
    have h := layersFold_stacked vo (nodeLayer nodes) (sortedBuckets nodes)
      (List.range (maxLayer (nodeLayer nodes) + 1)) nodes
      (List.pairwise_lt_range _)
      (fun l' _ i hi => mem_bucket_layer_s nodes l' i hi)
      (fun l' _ => bucket_nodup_s nodes l') l hmem
    rw [hfold]
    exact h
  · rw [bucket_empty_of_gt_s nodes l (by omega)]
    refine ⟨trivial, ?_⟩
    intro n hn
    simp [placedSeqS] at hn

/-- The stacking recurrence implies the no-overlap gap property (with
equality, hence also `≥`). -/
theorem stackedChain_gap (vo : ViewOptions) :
    ∀ (seq : List ScriptNode) (cursor : Q),
      stackedChain vo cursor seq →
      (∀ b ∈ seq.head?, Q.le cursor b.position.y) ∧
      List.Chain'
        (fun a b =>
          Q.le (Q.add (Q.add a.position.y (calculateNodeHeight vo a)) (qI 60)) b.position.y)
        seq := by
  intro seq
  induction seq with
  | nil =>
    intro cursor _
    exact ⟨by intro b hb; simp at hb, List.chain'_nil⟩
  | cons n rest ih =>
    intro cursor hc
    obtain ⟨hy, hrest⟩ := hc
    obtain ⟨ihead, ichain⟩ := ih _ hrest
    constructor
    · intro b hb
      rw [List.head?_cons, Option.mem_def, Option.some.injEq] at hb
      subst hb
      rw [hy]
      exact Q.le_refl cursor
    · rw [List.chain'_cons']
      refine ⟨?_, ichain⟩
      intro b hb
      rw [hy]
      exact ihead b hb

end GraphView

/-! # Claim theorems -/

/-- C10: for every input, the node array returned by either layout variant has
the same length and id order as the input array, and each output node equals
its input counterpart in every field except `position` (the embedding is a
pure function, so the input nodes are never mutated; the engine rebuilds
`[...nodes]` and only overwrites `position`). -/
theorem claim_C10_frame (ns : List OutlineNode) (es : List OutlineEdge)
    (vo : ViewOptions) (sns : List ScriptNode) :
    (OutlineView.laidNodes ns es).map clearPosO = ns.map clearPosO ∧
    (GraphView.laidNodes vo sns).map clearPosS = sns.map clearPosS :=
  ⟨OutlineView.laidNodes_map_clearPos ns es, GraphView.laidNodes_map_clearPos_s vo sns⟩

/-- C6: the BFS queue of either variant terminates on every input: run with
the pipeline's fuel it drains the queue completely, and at every intermediate
step count every assigned layer is at most 50 (children are enqueued at
`layer + 1` only while `layer < 50`). -/
theorem claim_C6_termination (ns : List OutlineNode) (es : List OutlineEdge)
    (sns : List ScriptNode) :
    ((bfsRun (OutlineView.buildGraph ns es).adj
        (queueMeasure (maxArity (OutlineView.buildGraph ns es).adj)
          (OutlineView.seeds ns (OutlineView.buildGraph ns es)))
        [] (OutlineView.seeds ns (OutlineView.buildGraph ns es))).2 = []) ∧
    (∀ (fuel : Nat) (p : Id × Nat),
        p ∈ (bfsRun (OutlineView.buildGraph ns es).adj fuel []
          (OutlineView.seeds ns (OutlineView.buildGraph ns es))).1 → p.2 ≤ 50) ∧
    ((bfsRun (GraphView.buildGraph sns).adj
        (queueMeasure (maxArity (GraphView.buildGraph sns).adj)
          (GraphView.seeds sns (GraphView.buildGraph sns)))
        [] (GraphView.seeds sns (GraphView.buildGraph sns))).2 = []) ∧
    (∀ (fuel : Nat) (p : Id × Nat),
        p ∈ (bfsRun (GraphView.buildGraph sns).adj fuel []
          (GraphView.seeds sns (GraphView.buildGraph sns))).1 → p.2 ≤ 50) := by
  refine ⟨bfsRun_drains _ _ [] _ (le_refl _), ?_,
    bfsRun_drains _ _ [] _ (le_refl _), ?_⟩
  · intro fuel p hp
    refine bfsRun_layer_bound _ fuel [] _ (by simp) ?_ p hp
    intro e he
    rw [OutlineView.seeds_snd_zero ns (OutlineView.buildGraph ns es) e he]
    omega
  · intro fuel p hp
    refine bfsRun_layer_bound _ fuel [] _ (by simp) ?_ p hp
    intro e he
    rw [GraphView.seeds_snd_zero_s sns (GraphView.buildGraph sns) e he]
    omega

/-- C5 counterexample: in the outline diamond 0 → 1, 0 → 2, 1 → 2, node 2's
layer is first assigned 1 (after three queue pops) and then *changed* to 2 by
a later queue entry, so an assigned label is not immutable; in the final
layering, node 2 — first reached from node 0 — ends at layer 2 ≠ layer(0) + 1. -/
theorem claim_C5_counterexample :
    recGet (bfsRun (OutlineView.buildGraph exDiamondNodes exDiamondEdges).adj 3 []
      (OutlineView.seeds exDiamondNodes
        (OutlineView.buildGraph exDiamondNodes exDiamondEdges))).1 2 = some 1 ∧
    recGet (bfsRun (OutlineView.buildGraph exDiamondNodes exDiamondEdges).adj 4 []
      (OutlineView.seeds exDiamondNodes
        (OutlineView.buildGraph exDiamondNodes exDiamondEdges))).1 2 = some 2 ∧
    recGet (OutlineView.nodeLayer exDiamondNodes exDiamondEdges) 0 = some 0 ∧
    recGet (OutlineView.nodeLayer exDiamondNodes exDiamondEdges) 2 = some 2 := by
  decide

/-- C5 (amended): during BFS layer assignment a node's layer label, once
assigned, is never *decreased* by a later queue entry — the guard discards
entries whose layer does not exceed the current assignment — though an entry
with a strictly larger layer revises it upward. -/
theorem claim_C5_no_demotion (adj : List (Id × List Id)) (fuel : Nat)
    (nl q : List (Id × Nat)) (j : Id) (l : Nat) (h : recGet nl j = some l) :
    ∃ l', recGet (bfsRun adj fuel nl q).1 j = some l' ∧ l ≤ l' :=
  bfsRun_mono adj fuel nl q j l h

/-- C5 witness: a queue entry with a smaller layer does not demote id 7. -/
theorem claim_C5_no_demotion_witness :
    ∃ l', recGet (bfsRun [] 1 [(7, 3)] [(7, 1)]).1 7 = some l' ∧ 3 ≤ l' :=
  claim_C5_no_demotion [] 1 [(7, 3)] [(7, 1)] 7 3 (by decide)

/-- C3 counterexample: two identical outline edge records 0 → 1 drive node 1's
in-degree to 2 — the outline variant does not deduplicate, contradicting "at
most once per distinct (source, target) pair" for both variants. -/
theorem claim_C3_counterexample :
    recGet (OutlineView.buildGraph exDupNodes exDupEdges).inDegree 1 = some 2 ∧ 1 < 2 := by
  refine ⟨by decide, by decide⟩

/-- C3 (amended): the *script* variant increments a target's in-degree once
per distinct (source, target) pair — each source's target list is
deduplicated, so a real node's in-degree counts the sources listing it — but
the *outline* variant increments once per edge record, so duplicate records
between the same pair inflate the count. -/
theorem claim_C3_inDegree (ns : List OutlineNode) (es : List OutlineEdge) (t : Id)
    (h : t ∈ ns.map OutlineNode.id) (sns : List ScriptNode) (u : Id)
    (h2 : u ∈ sns.map ScriptNode.id) :
    recGet (OutlineView.buildGraph ns es).inDegree t
      = some (es.countP (fun e => e.targetId = t)) ∧
    recGet (GraphView.buildGraph sns).inDegree u
      = some (sns.countP (fun n => u ∈ GraphView.uniqueTargets n)) ∧
    (∀ n : ScriptNode, (GraphView.uniqueTargets n).Nodup) :=
  ⟨OutlineView.buildGraph_inDegree ns es t h, GraphView.buildGraph_inDegree_s sns u h2,
    GraphView.uniqueTargets_nodup⟩

/-- C3 witness: on the duplicated outline record the count is 2; on the script
chain node 1 has in-degree 1. -/
theorem claim_C3_inDegree_witness :
    recGet (OutlineView.buildGraph exDupNodes exDupEdges).inDegree 1
      = some (exDupEdges.countP (fun e => e.targetId = 1)) ∧
    recGet (GraphView.buildGraph exScriptNodes).inDegree 1
      = some (exScriptNodes.countP (fun n => 1 ∈ GraphView.uniqueTargets n)) ∧
    (∀ n : ScriptNode, (GraphView.uniqueTargets n).Nodup) :=
  claim_C3_inDegree exDupNodes exDupEdges 1 (by decide) exScriptNodes 1 (by decide)

/-- C9 counterexample: with the single node 0 and the edge 0 → 99 whose target
is not in the node set, the unknown target *is* pushed into the source's
adjacency list, *does* get an in-degree entry, and *does* enter a layer
(layer 1), contradicting three of the claim's conjuncts. -/
theorem claim_C9_counterexample :
    recGet (OutlineView.buildGraph exDanglingNodes exDanglingEdges).adj 0 = some [99] ∧
    recGet (OutlineView.buildGraph exDanglingNodes exDanglingEdges).inDegree 99 = some 1 ∧
    (99, 1) ∈ OutlineView.nodeLayer exDanglingNodes exDanglingEdges := by
  decide

/-- C9 (amended): an edge whose target id is not in the node set contributes
no entry to the reverse-adjacency list, and the unknown id is dropped during
coordinate assignment (no output node carries it); however it is appended to
the source's adjacency list, it receives an in-degree entry, and it can be
assigned a layer (see the counterexample). -/
theorem claim_C9_dangling (ns : List OutlineNode) (es : List OutlineEdge) (t : Id)
    (h : t ∉ ns.map OutlineNode.id) (sns : List ScriptNode)
    (h2 : t ∉ sns.map ScriptNode.id) (vo : ViewOptions) :
    recGet (OutlineView.buildGraph ns es).revAdj t = none ∧
    (∀ n ∈ OutlineView.laidNodes ns es, n.id ≠ t) ∧
    recGet (GraphView.buildGraph sns).revAdj t = none ∧
    (∀ n ∈ GraphView.laidNodes vo sns, n.id ≠ t) := by
  refine ⟨OutlineView.buildGraph_revAdj_none ns es t h, ?_,
    GraphView.buildGraph_revAdj_none_s sns t h2, ?_⟩
  · intro n hn heq
    apply h
    rw [← OutlineView.laidNodes_ids ns es, ← heq]
    exact List.mem_map_of_mem OutlineNode.id hn
  · intro n hn heq
    apply h2
    rw [← GraphView.laidNodes_ids_s vo sns, ← heq]
    exact List.mem_map_of_mem ScriptNode.id hn

/-- C9 witness: instantiated on the dangling edge 0 → 99. -/
theorem claim_C9_dangling_witness :
    recGet (OutlineView.buildGraph exDanglingNodes exDanglingEdges).revAdj 99 = none ∧
    (∀ n ∈ OutlineView.laidNodes exDanglingNodes exDanglingEdges, n.id ≠ 99) ∧
    recGet (GraphView.buildGraph exScriptNodes).revAdj 99 = none ∧
    (∀ n ∈ GraphView.laidNodes exVO exScriptNodes, n.id ≠ 99) :=
  claim_C9_dangling exDanglingNodes exDanglingEdges 99 (by decide) exScriptNodes
    (by decide) exVO

/-- C2 counterexample: on the outline 3-chain the outline-mode layout *does*
rewrite the recorded connection sides — the returned edge list is the
right/left-canonicalized one, which differs from the input — contradicting
"the outline-mode variant performs no such edge rewrite". -/
theorem claim_C2_counterexample :
    OutlineView.handleAutoLayout exChainNodes exChainEdges
      = some (OutlineView.laidNodes exChainNodes exChainEdges,
          OutlineView.cleanedEdges exChainEdges) ∧
    OutlineView.cleanedEdges exChainEdges ≠ exChainEdges := by
  exact ⟨rfl, by decide⟩

/-- C2 (amended): it is the *outline-mode* variant that rewrites every edge's
recorded connection sides to the canonical pair `sourceAnchor = right`,
`targetAnchor = left`, leaving all other edge fields unchanged; the
script-mode variant performs no such rewrite — it has no edge records, and
its implicit connection data (`nextId`, `choices`) is returned unchanged. -/
theorem claim_C2_edge_rewrite (ns : List OutlineNode) (es : List OutlineEdge)
    (vo : ViewOptions) (sns : List ScriptNode) :
    (OutlineView.cleanedEdges es).map (fun e => (e.sourceAnchor, e.targetAnchor))
      = es.map (fun _ => (AnchorSide.right, AnchorSide.left)) ∧
    (OutlineView.cleanedEdges es).map (fun e => (e.id, e.sourceId, e.targetId, e.label))
      = es.map (fun e => (e.id, e.sourceId, e.targetId, e.label)) ∧
    ((OutlineView.handleAutoLayout ns es).map Prod.snd
      = if ns = [] then none else some (OutlineView.cleanedEdges es)) ∧
    (GraphView.laidNodes vo sns).map (fun n => (n.nextId, n.choices))
      = sns.map (fun n => (n.nextId, n.choices)) := by
  refine ⟨?_, ?_, ?_, ?_⟩
  · unfold OutlineView.cleanedEdges
    rw [List.map_map]
    rfl
  · unfold OutlineView.cleanedEdges
    rw [List.map_map]
    rfl
  · unfold OutlineView.handleAutoLayout
    by_cases hn : ns = []
    · rw [if_pos hn, if_pos hn]
      rfl
    · rw [if_neg hn, if_neg hn]
      rfl
  · have h := congrArg (List.map (fun n : ScriptNode => (n.nextId, n.choices)))
      (GraphView.laidNodes_map_clearPos_s vo sns)
    rw [List.map_map, List.map_map] at h
    exact h

/-- C4 counterexample: on the seven-card outline input whose depth-capped
cycles leave node 1 at layer 49 with no parent in layer 48 (next to the
parented nodes 3 and 6), the outline variant sorts the layer as `[3, 6, 1]`
— the parentless node is pushed to the end by the 9999 sentinel — whereas the
claim's own-index fallback would keep it first, `[1, 3, 6]`: the claim has the
two fallbacks attributed to the wrong variants. -/
theorem claim_C4_counterexample :
    (OutlineView.sortedBuckets exC4Nodes exC4Edges).getD 49 [] = [3, 6, 1] ∧
    (OutlineView.specSortedBuckets exC4Nodes exC4Edges).getD 49 [] = [1, 3, 6] ∧
    ([3, 6, 1] : List Id) ≠ [1, 3, 6] := by
  refine ⟨by decide, by decide, by decide⟩

/-- C4 (amended): in the crossing-minimization sweep, a node with no parent in
the previous layer receives the large sentinel score 9999 (pushing it to the
end) in the *outline* variant, while the *script* variant instead falls back
to the node's own current index in its layer — the opposite attribution of
the claim. -/
theorem claim_C4_fallback_scores (revAdj : List (Id × List Id)) (prev cur : List Id)
    (nid : Id) (h : ∀ p ∈ (recGet revAdj nid).getD [], p ∉ prev) :
    OutlineView.baryScore revAdj prev nid = qI 9999 ∧
    GraphView.baryScore revAdj prev cur nid = qI ((cur.indexOf nid : Nat) : Int) := by
  have hv : ((recGet revAdj nid).getD []).filter (fun p => decide (p ∈ prev)) = [] := by
    rw [List.filter_eq_nil_iff]
    intro p hp
    simpa using h p hp
  constructor
  · show (if ((recGet revAdj nid).getD []).filter (fun p => decide (p ∈ prev)) = []
      then qI 9999 else _) = qI 9999
    rw [if_pos hv]
  · show (if ((recGet revAdj nid).getD []).filter (fun p => decide (p ∈ prev)) = []
      then qI ((cur.indexOf nid : Nat) : Int) else _) = qI ((cur.indexOf nid : Nat) : Int)
    rw [if_pos hv]

/-- C4 witness: node 1 whose only recorded parent 2 is absent from the
previous bucket `[3]` scores 9999 in the outline variant and its own index 0
in the script variant's bucket `[1, 9]`. -/
theorem claim_C4_fallback_scores_witness :
    OutlineView.baryScore [(1, [2])] [3] 1 = qI 9999 ∧
    GraphView.baryScore [(1, [2])] [3] [1, 9] 1 = qI ((([1, 9] : List Id).indexOf 1 : Nat) : Int) :=
  claim_C4_fallback_scores [(1, [2])] [3] [1, 9] 1 (by decide)

/-- C1 counterexample: in the *script* variant's output for the chain
START 0 → END 1, node 1's only parent (node 0) sits in the immediately
preceding layer with span 100‥367 (y 100, height 267), yet node 1 is placed at
y = 100 — not at the claim's `max(cursor, parentSpanMidpoint − height/2)
= max(100, 467/2 − 227/2) = 120`: the script variant performs no parent
centering. -/
theorem claim_C1_counterexample :
    recGet (GraphView.buildGraph exScriptNodes).revAdj 1 = some [0] ∧
    recGet (GraphView.nodeLayer exScriptNodes) 0 = some 0 ∧
    recGet (GraphView.nodeLayer exScriptNodes) 1 = some 1 ∧
    ((GraphView.laidNodes exVO exScriptNodes).find? (fun n => n.id = 0)).map
      (fun n => (n.position.y, GraphView.calculateNodeHeight exVO n))
      = some (qI 100, qI 267) ∧
    ((GraphView.laidNodes exVO exScriptNodes).find? (fun n => n.id = 1)).map
      (fun n => (n.position.y, GraphView.calculateNodeHeight exVO n))
      = some (qI 100, qI 227) ∧
    Q.beqv (qI 100)
      (Q.max (qI 100)
        (Q.sub (Q.half (Q.add (qI 100) (Q.add (qI 100) (qI 267)))) (Q.half (qI 227))))
      = false := by
  decide

/-- C1 (amended): the parent-centering rule — final top y equals
`max(running cursor, parentSpanMidpoint − height/2)` whenever the node has a
valid parent in the immediately preceding layer, and the running cursor
otherwise — holds in the *outline* variant only, layer by layer over the final
output (`centeredChain` states exactly that recurrence, cursor advancing by
`height + 50`); the *script* variant ignores parents entirely and stacks each
layer from cursor 100 in steps of `height + 60` (`stackedChain`).  The outline
half is stated for inputs whose edge sources are all real nodes (otherwise the
source code computes a `NaN` center, which the embedding does not model). -/
theorem claim_C1_centering (ns : List OutlineNode) (es : List OutlineEdge)
    (_hsrc : ∀ e ∈ es, e.sourceId ∈ ns.map OutlineNode.id)
    (vo : ViewOptions) (sns : List ScriptNode) (l : Nat) :
    centeredChain (OutlineView.buildGraph ns es).revAdj (OutlineView.nodeLayer ns es) l
      (OutlineView.laidNodes ns es) (qI 100)
      (placedSeqO (OutlineView.laidNodes ns es)
        ((OutlineView.sortedBuckets ns es).getD l [])) ∧
    stackedChain vo (qI 100)
      (placedSeqS (GraphView.laidNodes vo sns)
        ((GraphView.sortedBuckets sns).getD l [])) :=
  ⟨(OutlineView.laidNodes_centered ns es l).1, (GraphView.laidNodes_stacked vo sns l).1⟩

/-- C1 witness: the amended recurrence instantiated on the outline 3-chain
(layer 1) and the script START → END chain. -/
theorem claim_C1_centering_witness :
    (∀ e ∈ exChainEdges, e.sourceId ∈ exChainNodes.map OutlineNode.id) ∧
    (centeredChain (OutlineView.buildGraph exChainNodes exChainEdges).revAdj
        (OutlineView.nodeLayer exChainNodes exChainEdges) 1
        (OutlineView.laidNodes exChainNodes exChainEdges) (qI 100)
        (placedSeqO (OutlineView.laidNodes exChainNodes exChainEdges)
          ((OutlineView.sortedBuckets exChainNodes exChainEdges).getD 1 [])) ∧
      stackedChain exVO (qI 100)
        (placedSeqS (GraphView.laidNodes exVO exScriptNodes)
          ((GraphView.sortedBuckets exScriptNodes).getD 1 []))) :=
  ⟨by decide, claim_C1_centering exChainNodes exChainEdges (by decide) exVO exScriptNodes 1⟩

/-- C7 counterexample: the no-overlap property fails in the source on a
*completing* run.  On the seven cards of `exC4Nodes` with the dangling-source
edges 4 → 7 and 7 → 1 added, layer 0 is populated (no crash), the dangling id
7 is layered 48 and is node 1's only previous-layer parent, so the NaN-faithful
walk gives node 1 the final y `NaN` (`none`): in layer 49's final order
`[3, 6, 1]` the consecutive pair (6, 1) violates the claimed gap inequality
`y(1) ≥ y(6) + height(6) + 50`, every JS comparison with NaN being false.
The input falsifies the claim precisely because one edge source is not a real
node. -/
theorem claim_C7_counterexample :
    ¬ OutlineView.layer0Missing exC4Nodes exC7Edges ∧
    recGet (OutlineView.nodeLayer exC4Nodes exC7Edges) 7 = some 48 ∧
    recGet (OutlineView.nodeLayer exC4Nodes exC7Edges) 1 = some 49 ∧
    (OutlineView.sortedBuckets exC4Nodes exC7Edges).getD 49 [] = [3, 6, 1] ∧
    recGet (OutlineView.laidYsN exC4Nodes exC7Edges) 6 = some (some (qI 270)) ∧
    recGet (OutlineView.laidYsN exC4Nodes exC7Edges) 1 = some none ∧
    QN.leb
      (QN.add (QN.add ((recGet (OutlineView.laidYsN exC4Nodes exC7Edges) 6).getD none)
        (some (qI 120))) (some (qI 50)))
      ((recGet (OutlineView.laidYsN exC4Nodes exC7Edges) 1).getD none) = false ∧
    ¬ (∀ e ∈ exC7Edges, e.sourceId ∈ exC4Nodes.map OutlineNode.id) := by
  decide

/-- C7 (amended): on inputs all of whose edge sources are present nodes — the
scope in which the coordinate embedding matches the source, since a dangling
source makes the source compute NaN coordinates (see the counterexample) — the
final output of either variant has no vertical overlap within a layer: the
second of two consecutive nodes in a layer's final order starts at least
`height + gap` below the first (gap 50 in outline mode, 60 in script mode,
where the height is the computed `calculateNodeHeight`), and all nodes of one
layer share the layer's x column. -/
theorem claim_C7_no_overlap (ns : List OutlineNode) (es : List OutlineEdge)
    (_hsrc : ∀ e ∈ es, e.sourceId ∈ ns.map OutlineNode.id)
    (vo : ViewOptions) (sns : List ScriptNode) (l : Nat) :
    List.Chain'
      (fun a b => Q.le (Q.add (Q.add a.position.y a.height) (qI 50)) b.position.y)
      (placedSeqO (OutlineView.laidNodes ns es)
        ((OutlineView.sortedBuckets ns es).getD l [])) ∧
    (∀ n ∈ placedSeqO (OutlineView.laidNodes ns es)
        ((OutlineView.sortedBuckets ns es).getD l []),
      n.position.x = qI (100 + 350 * (l : Int))) ∧
    List.Chain'
      (fun a b =>
        Q.le (Q.add (Q.add a.position.y (GraphView.calculateNodeHeight vo a)) (qI 60))
          b.position.y)
      (placedSeqS (GraphView.laidNodes vo sns)
        ((GraphView.sortedBuckets sns).getD l [])) ∧
    (∀ n ∈ placedSeqS (GraphView.laidNodes vo sns)
        ((GraphView.sortedBuckets sns).getD l []),
      n.position.x = qI (100 + 420 * (l : Int))) := by
  have hO := OutlineView.laidNodes_centered ns es l
  have hS := GraphView.laidNodes_stacked vo sns l
  exact ⟨(OutlineView.centeredChain_gap _ _ l _ _ (qI 100) hO.1).2, hO.2,
    (GraphView.stackedChain_gap vo _ (qI 100) hS.1).2, hS.2⟩

/-- C7 witness: the no-overlap and column properties instantiated on the
outline 3-chain (layer 2) and the script START → END chain. -/
theorem claim_C7_no_overlap_witness :
    (∀ e ∈ exChainEdges, e.sourceId ∈ exChainNodes.map OutlineNode.id) ∧
    (List.Chain'
        (fun a b => Q.le (Q.add (Q.add a.position.y a.height) (qI 50)) b.position.y)
        (placedSeqO (OutlineView.laidNodes exChainNodes exChainEdges)
          ((OutlineView.sortedBuckets exChainNodes exChainEdges).getD 2 [])) ∧
      (∀ n ∈ placedSeqO (OutlineView.laidNodes exChainNodes exChainEdges)
          ((OutlineView.sortedBuckets exChainNodes exChainEdges).getD 2 []),
        n.position.x = qI (100 + 350 * ((2 : Nat) : Int))) ∧
      List.Chain'
        (fun a b =>
          Q.le (Q.add (Q.add a.position.y (GraphView.calculateNodeHeight exVO a)) (qI 60))
            b.position.y)
        (placedSeqS (GraphView.laidNodes exVO exScriptNodes)
          ((GraphView.sortedBuckets exScriptNodes).getD 2 [])) ∧
      (∀ n ∈ placedSeqS (GraphView.laidNodes exVO exScriptNodes)
          ((GraphView.sortedBuckets exScriptNodes).getD 2 []),
        n.position.x = qI (100 + 420 * ((2 : Nat) : Int)))) :=
  ⟨by decide, claim_C7_no_overlap exChainNodes exChainEdges (by decide) exVO exScriptNodes 2⟩

/-- C8 counterexample: totality fails in the source on cyclic inputs, because
a crossing sort throws before any position is assigned.  The rootless outline
2-cycle 0 ⇄ 1 drives both nodes to layers 49–50, leaving layer 0 empty, so
`layers[0].sort` throws a TypeError; the script cycle START 0 → 1 ⇄ 2 leaves
layers 1‥48 empty, so `layers[1].sort` throws.  Both inputs are non-empty with
distinct ids and have nodes inside cycles — exactly the inputs the claim
covers — and the source produces no output position map for them. -/
theorem claim_C8_counterexample :
    OutlineView.layer0Missing exCycleNodes exCycleEdges ∧
    recGet (OutlineView.nodeLayer exCycleNodes exCycleEdges) 0 = some 50 ∧
    recGet (OutlineView.nodeLayer exCycleNodes exCycleEdges) 1 = some 49 ∧
    exCycleNodes ≠ [] ∧ (exCycleNodes.map OutlineNode.id).Nodup ∧
    GraphView.hasGapLayer exScriptCycleNodes ∧
    recGet (GraphView.nodeLayer exScriptCycleNodes) 0 = some 0 ∧
    recGet (GraphView.nodeLayer exScriptCycleNodes) 1 = some 49 ∧
    recGet (GraphView.nodeLayer exScriptCycleNodes) 2 = some 50 ∧
    exScriptCycleNodes ≠ [] ∧ (exScriptCycleNodes.map ScriptNode.id).Nodup := by
  decide

/-- C8 (amended): for every non-empty node set with distinct ids *on which the
crossing sorts do not throw* — outline: some node is assigned layer 0; script:
no empty layer below the maximum — either variant returns an output in which
every input node id appears exactly once, isolated nodes included; every node
the BFS never reaches is assigned layer 0 by the fallback rather than dropped;
and every node lands in exactly one crossing-minimization bucket, namely that
of its assigned layer.  On rootless cyclic outline inputs and on script inputs
with a reachable cycle the source instead throws a TypeError and produces
nothing (see the counterexample). -/
theorem claim_C8_totality (ns : List OutlineNode) (es : List OutlineEdge)
    (hne : ns ≠ []) (hnd : (ns.map OutlineNode.id).Nodup)
    (_hc0 : ¬ OutlineView.layer0Missing ns es)
    (vo : ViewOptions) (sns : List ScriptNode)
    (hneS : sns ≠ []) (hndS : (sns.map ScriptNode.id).Nodup)
    (_hgap : ¬ GraphView.hasGapLayer sns) :
    (∃ out, OutlineView.handleAutoLayout ns es
        = some (out, OutlineView.cleanedEdges es) ∧
      out.map OutlineNode.id = ns.map OutlineNode.id ∧
      ∀ i ∈ ns.map OutlineNode.id, (out.map OutlineNode.id).count i = 1) ∧
    (∀ n ∈ ns,
      recGet (bfsRun (OutlineView.buildGraph ns es).adj
          (queueMeasure (maxArity (OutlineView.buildGraph ns es).adj)
            (OutlineView.seeds ns (OutlineView.buildGraph ns es)))
          [] (OutlineView.seeds ns (OutlineView.buildGraph ns es))).1 n.id = none →
        recGet (OutlineView.nodeLayer ns es) n.id = some 0) ∧
    (∀ n ∈ ns, ∃ l, recGet (OutlineView.nodeLayer ns es) n.id = some l ∧
      n.id ∈ (OutlineView.sortedBuckets ns es).getD l [] ∧
      ∀ l', n.id ∈ (OutlineView.sortedBuckets ns es).getD l' [] → l' = l) ∧
    (∃ out, GraphView.handleAutoLayout vo sns = some out ∧
      out.map ScriptNode.id = sns.map ScriptNode.id ∧
      ∀ i ∈ sns.map ScriptNode.id, (out.map ScriptNode.id).count i = 1) ∧
    (∀ n ∈ sns,
      recGet (bfsRun (GraphView.buildGraph sns).adj
          (queueMeasure (maxArity (GraphView.buildGraph sns).adj)
            (GraphView.seeds sns (GraphView.buildGraph sns)))
          [] (GraphView.seeds sns (GraphView.buildGraph sns))).1 n.id = none →
        recGet (GraphView.nodeLayer sns) n.id = some 0) ∧
    (∀ n ∈ sns, ∃ l, recGet (GraphView.nodeLayer sns) n.id = some l ∧
      n.id ∈ (GraphView.sortedBuckets sns).getD l [] ∧
      ∀ l', n.id ∈ (GraphView.sortedBuckets sns).getD l' [] → l' = l) := by
  refine ⟨?_, ?_, ?_, ?_, ?_, ?_⟩
  · refine ⟨OutlineView.laidNodes ns es, ?_, OutlineView.laidNodes_ids ns es, ?_⟩
    · unfold OutlineView.handleAutoLayout
      rw [if_neg hne]
    · intro i hi
      rw [OutlineView.laidNodes_ids ns es]
      exact List.count_eq_one_of_mem hnd hi
  · intro n hn hnone
    exact withFallback_none ns OutlineNode.id _ n hn hnone
  · intro n hn
    have hsome : (recGet (OutlineView.nodeLayer ns es) n.id).isSome :=
      withFallback_mem ns OutlineNode.id _ n hn
    obtain ⟨l, hl⟩ := Option.isSome_iff_exists.mp hsome
    have hml : l ≤ maxLayer (OutlineView.nodeLayer ns es) :=
      mem_le_maxLayer _ n.id l (mem_of_recGet_eq_some _ _ _ hl)
    have hperm := OutlineView.sortedBuckets_perm ns es l
    rw [if_pos hml] at hperm
    refine ⟨l, hl, ?_, ?_⟩
    · exact hperm.mem_iff.mpr
        ((mem_layerIds_iff _ l n.id).mpr (mem_of_recGet_eq_some _ _ _ hl))
    · intro l' hl'
      have h2 := OutlineView.mem_bucket_layer ns es l' n.id hl'
      rw [hl] at h2
      exact (Option.some.inj h2).symm
  · refine ⟨GraphView.laidNodes vo sns, ?_, GraphView.laidNodes_ids_s vo sns, ?_⟩
    · unfold GraphView.handleAutoLayout
      rw [if_neg hneS]
    · intro i hi
      rw [GraphView.laidNodes_ids_s vo sns]
      exact List.count_eq_one_of_mem hndS hi
  · intro n hn hnone
    exact withFallback_none sns ScriptNode.id _ n hn hnone
  · intro n hn
    have hsome : (recGet (GraphView.nodeLayer sns) n.id).isSome :=
      withFallback_mem sns ScriptNode.id _ n hn
    obtain ⟨l, hl⟩ := Option.isSome_iff_exists.mp hsome
    have hml : l ≤ maxLayer (GraphView.nodeLayer sns) :=
      mem_le_maxLayer _ n.id l (mem_of_recGet_eq_some _ _ _ hl)
    have hperm := GraphView.sortedBuckets_perm_s sns l
    rw [if_pos hml] at hperm
    refine ⟨l, hl, ?_, ?_⟩
    · exact hperm.mem_iff.mpr
        ((mem_layerIds_iff _ l n.id).mpr (mem_of_recGet_eq_some _ _ _ hl))
    · intro l' hl'
      have h2 := GraphView.mem_bucket_layer_s sns l' n.id hl'
      rw [hl] at h2
      exact (Option.some.inj h2).symm

/-- C8 witness: totality instantiated on the outline 3-chain and the script
START → END chain. -/
theorem claim_C8_totality_witness :
    (exChainNodes ≠ [] ∧ (exChainNodes.map OutlineNode.id).Nodup ∧
      ¬ OutlineView.layer0Missing exChainNodes exChainEdges ∧
      exScriptNodes ≠ [] ∧ (exScriptNodes.map ScriptNode.id).Nodup ∧
      ¬ GraphView.hasGapLayer exScriptNodes) ∧
    ((∃ out, OutlineView.handleAutoLayout exChainNodes exChainEdges
        = some (out, OutlineView.cleanedEdges exChainEdges) ∧
      out.map OutlineNode.id = exChainNodes.map OutlineNode.id ∧
      ∀ i ∈ exChainNodes.map OutlineNode.id, (out.map OutlineNode.id).count i = 1) ∧
    (∀ n ∈ exChainNodes,
      recGet (bfsRun (OutlineView.buildGraph exChainNodes exChainEdges).adj
          (queueMeasure (maxArity (OutlineView.buildGraph exChainNodes exChainEdges).adj)
            (OutlineView.seeds exChainNodes
              (OutlineView.buildGraph exChainNodes exChainEdges)))
          [] (OutlineView.seeds exChainNodes
            (OutlineView.buildGraph exChainNodes exChainEdges))).1 n.id = none →
        recGet (OutlineView.nodeLayer exChainNodes exChainEdges) n.id = some 0) ∧
    (∀ n ∈ exChainNodes, ∃ l,
      recGet (OutlineView.nodeLayer exChainNodes exChainEdges) n.id = some l ∧
      n.id ∈ (OutlineView.sortedBuckets exChainNodes exChainEdges).getD l [] ∧
      ∀ l', n.id ∈ (OutlineView.sortedBuckets exChainNodes exChainEdges).getD l' [] →
        l' = l) ∧
    (∃ out, GraphView.handleAutoLayout exVO exScriptNodes = some out ∧
      out.map ScriptNode.id = exScriptNodes.map ScriptNode.id ∧
      ∀ i ∈ exScriptNodes.map ScriptNode.id, (out.map ScriptNode.id).count i = 1) ∧
    (∀ n ∈ exScriptNodes,
      recGet (bfsRun (GraphView.buildGraph exScriptNodes).adj
          (queueMeasure (maxArity (GraphView.buildGraph exScriptNodes).adj)
            (GraphView.seeds exScriptNodes (GraphView.buildGraph exScriptNodes)))
          [] (GraphView.seeds exScriptNodes
            (GraphView.buildGraph exScriptNodes))).1 n.id = none →
        recGet (GraphView.nodeLayer exScriptNodes) n.id = some 0) ∧
    (∀ n ∈ exScriptNodes, ∃ l,
      recGet (GraphView.nodeLayer exScriptNodes) n.id = some l ∧
      n.id ∈ (GraphView.sortedBuckets exScriptNodes).getD l [] ∧
      ∀ l', n.id ∈ (GraphView.sortedBuckets exScriptNodes).getD l' [] → l' = l)) :=
  ⟨⟨by decide, by decide, by decide, by decide, by decide, by decide⟩,
    claim_C8_totality exChainNodes exChainEdges (by decide) (by decide) (by decide)
      exVO exScriptNodes (by decide) (by decide) (by decide)⟩

end StoryWeaver

